import Mathlib

/-!
Verification development for the Amazon order-history extractor.

The Python sources are shallowly embedded: the pure field parsers of
`src/utils.py` become Lean functions on `String` / `List Char`; the page
extraction and traversal logic of `src/amazon_order_extractor.py` becomes
pure functions over explicit view/page structures, with browser effects
(element queries, waits, navigation outcomes) supplied as data; decimal
values parsed by Python `float` are modelled exactly as rationals; Python
`None` becomes `Option.none`; exceptions raised by navigation waits become
`Except.error`.
-/

/-- ASCII decimal digit test, the semantics of `\d` used by the regexes in
`src/utils.py` (restricted to ASCII, which is what order pages contain). -/
def isDigitC (c : Char) : Bool := 48 ≤ c.toNat && c.toNat ≤ 57

/-- Whitespace class used by Python `\s` / `str.strip` on the characters that
occur in scraped text: space, tab, newline, carriage return, vertical tab,
form feed, and the non-breaking space `\xa0`. -/
def isWSC (c : Char) : Bool :=
  c.toNat = 32 || c.toNat = 9 || c.toNat = 10 || c.toNat = 13 ||
  c.toNat = 11 || c.toNat = 12 || c.toNat = 160

/-- Numeric value of a digit character. -/
def charVal (c : Char) : Nat := c.toNat - 48

/-- Value of a list of digit characters read in base 10, the semantics of
Python `int`/`float` on a digit string. -/
def digitsToNat (ds : List Char) : Nat := ds.foldl (fun a c => a * 10 + charVal c) 0

/-- One step of whitespace-run collapsing: the flag records whether the
previous character was whitespace (in which case further whitespace is
dropped rather than emitted).  Models `re.sub(r'\s+', ' ', text)`. -/
def collapseWSAux : Bool → List Char → List Char
  | _, [] => []
  | prevWS, c :: cs =>
    if isWSC c then
      if prevWS then collapseWSAux true cs else ' ' :: collapseWSAux true cs
    else c :: collapseWSAux false cs

/-- Python `str.strip()`: drop whitespace from both ends. -/
def stripEnds (cs : List Char) : List Char :=
  ((cs.dropWhile isWSC).reverse.dropWhile isWSC).reverse

/-- Replacement of non-breaking spaces by ordinary spaces,
`text.replace('\xa0', ' ')`. -/
def replNB (cs : List Char) : List Char :=
  cs.map (fun c => if c.toNat = 160 then ' ' else c)

/-- `clean_text` of `src/utils.py`: empty input maps to `""`; otherwise
whitespace runs are collapsed to single spaces and the ends stripped, then
non-breaking spaces are replaced by spaces and the ends stripped again. -/
def clean_text (s : String) : String :=
  if s = "" then ""
  else ⟨stripEnds (replNB (stripEnds (collapseWSAux false s.data)))⟩

/-- Leftmost maximal digit run in a character list: the semantics of
`re.search(r'\d+', s)` returning the matched text. -/
def firstNumRun : List Char → Option (List Char)
  | [] => none
  | c :: cs => if isDigitC c then some (c :: cs.takeWhile isDigitC) else firstNumRun cs

/-- `extract_quantity` of `src/utils.py`: default 1 on empty input, else the
integer value of the first digit run, else default 1. -/
def extract_quantity (s : String) : Nat :=
  if s = "" then 1
  else match firstNumRun s.data with
    | some ds => digitsToNat ds
    | none => 1

/-- Character class `[\d,]` of the price regex. -/
def isPriceClass (c : Char) : Bool := isDigitC c || c = ','

/-- Attempt of the price pattern `[\d,]+\.\d+` anchored at the head of the
list: a maximal nonempty `[\d,]` run, a dot, then a maximal nonempty digit
run.  Returns the whole-part and fraction-part character runs.  (The regex
needs no backtracking here: every shortened `[\d,]+` run is followed by a
class character, never by `.`.)  `priceTail` handles the part of the pattern
after the `[\d,]+` run, with `w` the run already matched. -/
def priceTail (w : List Char) : List Char → Option (List Char × List Char)
  | c :: r2 =>
    if c = '.' then
      let f := r2.takeWhile isDigitC
      if f.isEmpty then none else some (w, f)
    else none
  | [] => none

def matchPriceAt (cs : List Char) : Option (List Char × List Char) :=
  let w := cs.takeWhile isPriceClass
  if w.isEmpty then none else priceTail w (cs.dropWhile isPriceClass)

/-- Leftmost match of the price pattern (`re.search` semantics). -/
def findPrice : List Char → Option (List Char × List Char)
  | [] => none
  | c :: cs =>
    match matchPriceAt (c :: cs) with
    | some m => some m
    | none => findPrice cs

/-- Comma removal, `price_text.replace(',', '')`. -/
def stripCommas (cs : List Char) : List Char := cs.filter (fun c => c ≠ ',')

/-- `extract_price` of `src/utils.py`: `None` on empty input; otherwise
commas are removed, the first `[\d,]+\.\d+` match is taken and its decimal
value returned, `None` when there is no match.  The decimal value of the
matched text is modelled exactly as a rational. -/
def extract_price (s : String) : Option ℚ :=
  if s = "" then none
  else match findPrice (stripCommas s.data) with
    | some (w, f) => some ((digitsToNat w : ℚ) + (digitsToNat f : ℚ) / (10 : ℚ) ^ f.length)
    | none => none

/-- Attempt of the order-id pattern `(?:\d+-){2}\d+` anchored at the head:
three maximal nonempty digit runs separated by hyphens.  (Greedy `\d+`
followed by `-` needs no backtracking: shortening a digit run leaves a digit,
never `-`, as the next character.)  `idTail2` handles the part after the
second hyphen, with `d1` and `d2` the runs already matched. -/
def idTail2 (d1 d2 : List Char) : List Char → Option (List Char)
  | c :: r4 =>
    if c = '-' then
      let d3 := r4.takeWhile isDigitC
      if d3.isEmpty then none else some (d1 ++ '-' :: (d2 ++ '-' :: d3))
    else none
  | [] => none

/-- The part of the order-id pattern after the first hyphen: `\d+-\d+`. -/
def idTail1 (d1 : List Char) : List Char → Option (List Char)
  | c :: r2 =>
    if c = '-' then
      let d2 := r2.takeWhile isDigitC
      if d2.isEmpty then none else idTail2 d1 d2 (r2.dropWhile isDigitC)
    else none
  | [] => none

def matchIdAt (cs : List Char) : Option (List Char) :=
  let d1 := cs.takeWhile isDigitC
  if d1.isEmpty then none else idTail1 d1 (cs.dropWhile isDigitC)

/-- Leftmost match of the order-id pattern. -/
def findId : List Char → Option (List Char)
  | [] => none
  | c :: cs =>
    match matchIdAt (c :: cs) with
    | some m => some m
    | none => findId cs

/-- `extract_order_id` of `src/utils.py`: `""` on empty input; the first
`(?:\d+-){2}\d+` match when present; otherwise the cleaned raw text. -/
def extract_order_id (s : String) : String :=
  if s = "" then ""
  else match findId s.data with
    | some m => ⟨m⟩
    | none => clean_text s

/-- Character class `[A-Z0-9]` of the ASIN regex. -/
def isAsinChar (c : Char) : Bool := (65 ≤ c.toNat && c.toNat ≤ 90) || isDigitC c

/-- Attempt of `/([A-Z0-9]{10})(?:/|\?|$)` anchored at the head: a slash,
exactly ten `[A-Z0-9]` characters, then a slash, a question mark, or the end
of the input.  Returns the ten captured characters. -/
def matchAsinAt : List Char → Option (List Char)
  | c :: rest =>
    if c = '/' then
      let ten := rest.take 10
      let after := rest.drop 10
      if ten.length = 10 && ten.all isAsinChar &&
         (after.isEmpty || after.head? = some '/' || after.head? = some '?')
      then some ten else none
    else none
  | [] => none

/-- Leftmost match of the ASIN pattern. -/
def findAsin : List Char → Option (List Char)
  | [] => none
  | c :: cs =>
    match matchAsinAt (c :: cs) with
    | some m => some m
    | none => findAsin cs

/-- `extract_asin_from_url` of `src/utils.py`: `None` on empty input or when
the pattern does not occur, else the ten captured characters. -/
def extract_asin_from_url (s : String) : Option String :=
  if s = "" then none
  else (findAsin s.data).map (fun m => ⟨m⟩)

/-- Calendar date, the fields of a Python `datetime` that the extractor
reads and writes. -/
structure Date where
  year : Nat
  month : Nat
  day : Nat
deriving DecidableEq, Repr

/-- Gregorian leap-year rule, as applied by Python `datetime`. -/
def isLeap (y : Nat) : Bool := y % 4 = 0 && (y % 100 ≠ 0 || y % 400 = 0)

/-- Days in a month, as validated by the Python `datetime` constructor. -/
def daysInMonth (y m : Nat) : Nat :=
  if m = 2 then (if isLeap y then 29 else 28)
  else if m = 4 || m = 6 || m = 9 || m = 11 then 30
  else 31

/-- A calendar date the embedding treats as valid: in range for Python
`datetime` and with a four-digit year, the form `%Y` both emits and parses. -/
def ValidDate (dt : Date) : Prop :=
  1000 ≤ dt.year ∧ dt.year ≤ 9999 ∧ 1 ≤ dt.month ∧ dt.month ≤ 12 ∧
  1 ≤ dt.day ∧ dt.day ≤ daysInMonth dt.year dt.month

instance : DecidablePred ValidDate := fun _ => by unfold ValidDate; infer_instance

/-- Digit character of a value below ten. -/
def digitChar : Nat → Char
  | 0 => '0' | 1 => '1' | 2 => '2' | 3 => '3' | 4 => '4'
  | 5 => '5' | 6 => '6' | 7 => '7' | 8 => '8' | _ => '9'

/-- Two-digit zero-padded rendering, `strftime` `%d` / `%m`. -/
def digit2 (n : Nat) : List Char := [digitChar (n / 10), digitChar (n % 10)]

/-- Four-digit rendering, `strftime` `%Y` for years 1000–9999. -/
def digit4 (n : Nat) : List Char :=
  [digitChar (n / 1000), digitChar (n / 100 % 10), digitChar (n / 10 % 10), digitChar (n % 10)]

/-- ASCII lower-casing, the effect of `re.IGNORECASE` comparison used by
`strptime` for month names. -/
def lc (c : Char) : Char :=
  if 65 ≤ c.toNat ∧ c.toNat ≤ 90 then Char.ofNat (c.toNat + 32) else c

/-- Case-insensitive literal match of a pattern against the head of the
input, returning the rest of the input. -/
def matchCI : List Char → List Char → Option (List Char)
  | [], r => some r
  | _ :: _, [] => none
  | p :: ps, c :: cs => if lc p = lc c then matchCI ps cs else none

/-- Try month names in table order (the `strptime` alternation, built
longest-name-first); on a match return the month number and the rest. -/
def parseMonthTbl : List (List Char × Nat) → List Char → Option (Nat × List Char)
  | [], _ => none
  | (nm, idx) :: rest, cs =>
    match matchCI nm cs with
    | some r => some (idx, r)
    | none => parseMonthTbl rest cs

/-- Full month names ordered longest first, the alternation `strptime`
compiles for `%B`. -/
def monthTableB : List (List Char × Nat) :=
  [("September".data, 9), ("November".data, 11), ("December".data, 12),
   ("February".data, 2), ("January".data, 1), ("October".data, 10),
   ("August".data, 8), ("April".data, 4), ("March".data, 3),
   ("June".data, 6), ("July".data, 7), ("May".data, 5)]

/-- Abbreviated month names, the alternation `strptime` compiles for `%b`. -/
def monthTableb : List (List Char × Nat) :=
  [("Jan".data, 1), ("Feb".data, 2), ("Mar".data, 3), ("Apr".data, 4),
   ("May".data, 5), ("Jun".data, 6), ("Jul".data, 7), ("Aug".data, 8),
   ("Sep".data, 9), ("Oct".data, 10), ("Nov".data, 11), ("Dec".data, 12)]

/-- The `strptime` day token `(?:3[01]|[12]\d|0[1-9]|[1-9])`, alternatives
tried in regex order. -/
def parseDayTok : List Char → Option (Nat × List Char)
  | [] => none
  | [c] => if 49 ≤ c.toNat ∧ c.toNat ≤ 57 then some (charVal c, []) else none
  | c1 :: c2 :: rest =>
    if c1 = '3' ∧ (c2 = '0' ∨ c2 = '1') then some (30 + charVal c2, rest)
    else if (c1 = '1' ∨ c1 = '2') ∧ isDigitC c2 then some (charVal c1 * 10 + charVal c2, rest)
    else if c1 = '0' ∧ (49 ≤ c2.toNat ∧ c2.toNat ≤ 57) then some (charVal c2, rest)
    else if 49 ≤ c1.toNat ∧ c1.toNat ≤ 57 then some (charVal c1, c2 :: rest)
    else none

/-- The `strptime` month-number token `(?:1[0-2]|0[1-9]|[1-9])`. -/
def parseMonthNumTok : List Char → Option (Nat × List Char)
  | [] => none
  | [c] => if 49 ≤ c.toNat ∧ c.toNat ≤ 57 then some (charVal c, []) else none
  | c1 :: c2 :: rest =>
    if c1 = '1' ∧ (48 ≤ c2.toNat ∧ c2.toNat ≤ 50) then some (10 + charVal c2, rest)
    else if c1 = '0' ∧ (49 ≤ c2.toNat ∧ c2.toNat ≤ 57) then some (charVal c2, rest)
    else if 49 ≤ c1.toNat ∧ c1.toNat ≤ 57 then some (charVal c1, c2 :: rest)
    else none

/-- The `strptime` year token `\d\d\d\d`: exactly four digits. -/
def parseY4 : List Char → Option (Nat × List Char)
  | a :: b :: c :: d :: rest =>
    if isDigitC a && isDigitC b && isDigitC c && isDigitC d then
      some (charVal a * 1000 + charVal b * 100 + charVal c * 10 + charVal d, rest)
    else none
  | _ => none

/-- `\s+`: at least one whitespace character, consumed greedily (the token
after it never begins with whitespace, so greediness is exact). -/
def skipWS1 : List Char → Option (List Char)
  | [] => none
  | c :: cs => if isWSC c then some (cs.dropWhile isWSC) else none

/-- A literal character of the format string. -/
def litTok (ch : Char) : List Char → Option (List Char)
  | [] => none
  | c :: cs => if c = ch then some cs else none

/-- Validation applied by the `datetime` constructor after a regex match:
year in `[1, 9999]`, month in `[1, 12]`, day in range for the month.  A
failure raises `ValueError`, which `extract_date` catches and treats as
a non-match. -/
def mkValidDate (y m d : Nat) : Option Date :=
  if 1 ≤ y ∧ y ≤ 9999 ∧ 1 ≤ m ∧ m ≤ 12 ∧ 1 ≤ d ∧ d ≤ daysInMonth y m
  then some ⟨y, m, d⟩ else none

/-- Layout `"%B %d, %Y"` (January 1, 2023). -/
def parseLayoutB (cs : List Char) : Option Date := do
  let (m, r1) ← parseMonthTbl monthTableB cs
  let r2 ← skipWS1 r1
  let (d, r3) ← parseDayTok r2
  let r4 ← litTok ',' r3
  let r5 ← skipWS1 r4
  let (y, r6) ← parseY4 r5
  if r6 = [] then mkValidDate y m d else none

/-- Layout `"%b %d, %Y"` (Jan 1, 2023). -/
def parseLayoutb (cs : List Char) : Option Date := do
  let (m, r1) ← parseMonthTbl monthTableb cs
  let r2 ← skipWS1 r1
  let (d, r3) ← parseDayTok r2
  let r4 ← litTok ',' r3
  let r5 ← skipWS1 r4
  let (y, r6) ← parseY4 r5
  if r6 = [] then mkValidDate y m d else none

/-- Layout `"%d %B %Y"` (1 January 2023). -/
def parseLayoutdB (cs : List Char) : Option Date := do
  let (d, r1) ← parseDayTok cs
  let r2 ← skipWS1 r1
  let (m, r3) ← parseMonthTbl monthTableB r2
  let r4 ← skipWS1 r3
  let (y, r5) ← parseY4 r4
  if r5 = [] then mkValidDate y m d else none

/-- Layout `"%d %b %Y"` (1 Jan 2023). -/
def parseLayoutdb (cs : List Char) : Option Date := do
  let (d, r1) ← parseDayTok cs
  let r2 ← skipWS1 r1
  let (m, r3) ← parseMonthTbl monthTableb r2
  let r4 ← skipWS1 r3
  let (y, r5) ← parseY4 r4
  if r5 = [] then mkValidDate y m d else none

/-- Layout `"%Y-%m-%d"` (2023-01-01). -/
def parseLayoutISO (cs : List Char) : Option Date := do
  let (y, r1) ← parseY4 cs
  let r2 ← litTok '-' r1
  let (m, r3) ← parseMonthNumTok r2
  let r4 ← litTok '-' r3
  let (d, r5) ← parseDayTok r4
  if r5 = [] then mkValidDate y m d else none

/-- Layout `"%m/%d/%Y"` (01/01/2023). -/
def parseLayoutMDY (cs : List Char) : Option Date := do
  let (m, r1) ← parseMonthNumTok cs
  let r2 ← litTok '/' r1
  let (d, r3) ← parseDayTok r2
  let r4 ← litTok '/' r3
  let (y, r5) ← parseY4 r4
  if r5 = [] then mkValidDate y m d else none

/-- `extract_date` of `src/utils.py`: `None` on empty input; otherwise the
cleaned text is tried against the six layouts in source order and the first
successful parse wins; `None` when none parses. -/
def extract_date (s : String) : Option Date :=
  if s = "" then none
  else
    let t := (clean_text s).data
    (parseLayoutB t).orElse fun _ =>
    (parseLayoutb t).orElse fun _ =>
    (parseLayoutdB t).orElse fun _ =>
    (parseLayoutdb t).orElse fun _ =>
    (parseLayoutISO t).orElse fun _ =>
    parseLayoutMDY t

/-- Full month name of a month number, `strftime` `%B`. -/
def monthNameChars : Nat → List Char
  | 1 => "January".data | 2 => "February".data | 3 => "March".data
  | 4 => "April".data | 5 => "May".data | 6 => "June".data
  | 7 => "July".data | 8 => "August".data | 9 => "September".data
  | 10 => "October".data | 11 => "November".data | _ => "December".data

/-- Abbreviated month name, `strftime` `%b`. -/
def monthAbbrChars : Nat → List Char
  | 1 => "Jan".data | 2 => "Feb".data | 3 => "Mar".data
  | 4 => "Apr".data | 5 => "May".data | 6 => "Jun".data
  | 7 => "Jul".data | 8 => "Aug".data | 9 => "Sep".data
  | 10 => "Oct".data | 11 => "Nov".data | _ => "Dec".data

/-- `strftime("%B %d, %Y")`. -/
def fmtBChars (dt : Date) : List Char :=
  monthNameChars dt.month ++ ' ' :: (digit2 dt.day ++ ',' :: ' ' :: digit4 dt.year)

/-- `strftime("%b %d, %Y")`. -/
def fmtbChars (dt : Date) : List Char :=
  monthAbbrChars dt.month ++ ' ' :: (digit2 dt.day ++ ',' :: ' ' :: digit4 dt.year)

/-- `strftime("%d %B %Y")`. -/
def fmtdBChars (dt : Date) : List Char :=
  digit2 dt.day ++ ' ' :: (monthNameChars dt.month ++ ' ' :: digit4 dt.year)

/-- `strftime("%d %b %Y")`. -/
def fmtdbChars (dt : Date) : List Char :=
  digit2 dt.day ++ ' ' :: (monthAbbrChars dt.month ++ ' ' :: digit4 dt.year)

/-- `strftime("%Y-%m-%d")`. -/
def fmtISOChars (dt : Date) : List Char :=
  digit4 dt.year ++ '-' :: (digit2 dt.month ++ '-' :: digit2 dt.day)

/-- `strftime("%m/%d/%Y")`. -/
def fmtMDYChars (dt : Date) : List Char :=
  digit2 dt.month ++ '/' :: (digit2 dt.day ++ '/' :: digit4 dt.year)

/-- `OrderItem` of `src/models.py`.  `price` is an exact decimal rational or
absent; `asin` and `url` are optional strings. -/
structure OrderItem where
  name : String
  price : Option ℚ
  quantity : Nat
  asin : Option String
  url : Option String
deriving DecidableEq, Repr

/-- `Order` of `src/models.py`. -/
structure Order where
  order_id : String
  order_date : Date
  order_total : Option ℚ
  items : List OrderItem
  shipping_address : Option String
  status : Option String
deriving DecidableEq, Repr

/-- A cell of the flat row built by `Order.to_dict`: a string, an exact
number, an integer, or Python `None`. -/
inductive CellVal where
  | vStr (s : String)
  | vNum (q : ℚ)
  | vInt (n : Nat)
  | vNull
deriving DecidableEq, Repr

/-- Serialization of an optional number: `None` stays `None`. -/
def optNum : Option ℚ → CellVal
  | none => .vNull
  | some q => .vNum q

/-- Serialization of an optional string: `None` stays `None`. -/
def optStr : Option String → CellVal
  | none => .vNull
  | some t => .vStr t

/-- The flattened per-item columns appended by `Order.to_dict`, with `n` the
1-based position of the next item. -/
def itemCols : Nat → List OrderItem → List (String × CellVal)
  | _, [] => []
  | n, it :: rest =>
    ("item_" ++ toString n ++ "_name", .vStr it.name) ::
    ("item_" ++ toString n ++ "_price", optNum it.price) ::
    ("item_" ++ toString n ++ "_quantity", .vInt it.quantity) ::
    ("item_" ++ toString n ++ "_asin", optStr it.asin) ::
    itemCols (n + 1) rest

/-- `Order.to_dict` of `src/models.py`: the six fixed columns (with the date
rendered `%Y-%m-%d`) followed by the flattened item columns. -/
def Order.to_dict (o : Order) : List (String × CellVal) :=
  ("order_id", .vStr o.order_id) ::
  ("order_date", .vStr ⟨fmtISOChars o.order_date⟩) ::
  ("order_total", optNum o.order_total) ::
  ("status", optStr o.status) ::
  ("shipping_address", optStr o.shipping_address) ::
  ("item_count", .vInt o.items.length) ::
  itemCols 1 o.items

/-- The name-bearing sub-element of an item view: its text content and its
`href` attribute (`None` when the attribute is missing). -/
structure NameElem where
  text : String
  href : Option String
deriving DecidableEq, Repr

/-- A rendered item view as `extract_item_info` reads it: the optional
name/price/quantity sub-elements, each contributing its text when present. -/
structure ItemView where
  nameElem : Option NameElem
  priceText : Option String
  qtyText : Option String
deriving DecidableEq, Repr

/-- A shipment container inside an order card: its `div.a-box-group` item
sub-elements, and the view of the container itself, used as a single item
when no sub-element is recognized. -/
structure ShipContainer where
  boxItems : List ItemView
  selfItem : ItemView
deriving DecidableEq, Repr

/-- An order card as `extract_order_info` reads it: the optional id element
text, the texts of the date elements, the free-text month-name date found by
the fallback JavaScript regex (when any), the texts of the total elements,
the optional status text, and the shipment containers. -/
structure OrderView where
  idText : Option String
  dateTexts : List String
  innerDate : Option String
  totalTexts : List String
  statusText : Option String
  containers : List ShipContainer
deriving DecidableEq, Repr

/-- `extract_item_info` of `src/amazon_order_extractor.py`: name and url come
from the name element when present (else `""`), price and quantity from their
elements through the field parsers, the ASIN from the url. -/
def extract_item_info (iv : ItemView) : OrderItem :=
  let nm := match iv.nameElem with
    | none => ""
    | some ne => ne.text
  let url : Option String := match iv.nameElem with
    | none => some ""
    | some ne => ne.href
  let price := match iv.priceText with
    | none => none
    | some t => extract_price t
  let qty := match iv.qtyText with
    | none => 1
    | some t => extract_quantity t
  { name := clean_text nm, price := price, quantity := qty,
    asin := extract_asin_from_url (url.getD ""), url := url }

/-- The item sub-elements a container contributes: its `div.a-box-group`
children, or the container itself when there are none. -/
def containerItems (c : ShipContainer) : List ItemView :=
  if c.boxItems.isEmpty then [c.selfItem] else c.boxItems

/-- The item records collected from all containers of one order card, keeping
only items with a nonempty name. -/
def collectItems (cs : List ShipContainer) : List OrderItem :=
  (cs.flatMap (fun c => (containerItems c).map extract_item_info)).filter
    (fun it => it.name ≠ "")

/-- The date obtained from the first date sub-element, when any parses. -/
def primaryDate (v : OrderView) : Option Date :=
  match v.dateTexts with
  | [] => none
  | t :: _ => extract_date t

/-- The order date after the fallbacks of `extract_order_info`: the primary
date; else the free-text month-name match if it parses — `none` (the order is
dropped through the caught pydantic `ValidationError`) if such a match exists
but does not parse; else the current timestamp `now`. -/
def resolvedDate (now : Date) (v : OrderView) : Option Date :=
  match primaryDate v with
  | some d => some d
  | none =>
    match v.innerDate with
    | some t => extract_date t
    | none => some now

/-- `extract_order_info` of `src/amazon_order_extractor.py`.  `none` when the
id element is absent or the date fallback chain fails. -/
def extract_order_info (now : Date) (v : OrderView) : Option Order :=
  match v.idText with
  | none => none
  | some idt =>
    let oid := extract_order_id idt
    match resolvedDate now v with
    | none => none
    | some d =>
      let tot : Option ℚ := match v.totalTexts with
        | [] => none
        | t :: _ => extract_price t
      let stat : String := match v.statusText with
        | none => ""
        | some t => t
      some { order_id := oid, order_date := d, order_total := tot,
             items := collectItems v.containers,
             shipping_address := some "",
             status := some (clean_text stat) }

/-- A navigation/timeout fault raised by a Playwright wait or click. -/
inductive NavErr where
  | timeout
deriving DecidableEq, Repr

/-- One rendered order-listing page together with the behaviour of the
browser on it: whether the orders container materializes within the timeout,
the order cards, the state of the pagination "next" control, and whether
clicking it and waiting for the next page succeeds. -/
structure PageView where
  containerOk : Bool
  cards : List OrderView
  nextPresent : Bool
  nextDisabled : Bool
  advanceOk : Bool
deriving DecidableEq, Repr

/-- `extract_orders_from_page`: the wait for the orders container raises on
timeout; otherwise each order card is extracted and the non-`None` results
kept, in page order. -/
def extract_orders_from_page (now : Date) (p : PageView) : Except NavErr (List Order) :=
  if p.containerOk then .ok (p.cards.filterMap (extract_order_info now))
  else .error .timeout

/-- `has_next_page`: a "next" control exists and is not `aria-disabled`. -/
def has_next_page (p : PageView) : Bool := p.nextPresent && !p.nextDisabled

/-- `go_to_next_page`: `False` when the "next" control is absent; otherwise
the click and the waits either succeed (`True`) or raise. -/
def go_to_next_page (p : PageView) : Except NavErr Bool :=
  if !p.nextPresent then .ok false
  else if p.advanceOk then .ok true
  else .error .timeout

/-- The `if config.MAX_PAGES and page_num > config.MAX_PAGES` guard: Python
truthiness makes both `None` and `0` mean "no ceiling". -/
def maxReached (mp : Option Nat) (n : Nat) : Bool :=
  match mp with
  | none => false
  | some m => !(m == 0) && decide (m < n)

/-- The body of the `while True` loop of `extract_all_orders`, walking the
page sequence the browser presents.  Any raise propagates. -/
def extractAllLoop (now : Date) (mp : Option Nat) :
    List PageView → Nat → List Order → Except NavErr (List Order)
  | [], _, acc => .ok acc
  | p :: rest, n, acc =>
    if maxReached mp n then .ok acc
    else
      match extract_orders_from_page now p with
      | .error e => .error e
      | .ok pos =>
        let acc2 := acc ++ pos
        if !has_next_page p then .ok acc2
        else
          match go_to_next_page p with
          | .error e => .error e
          | .ok false => .ok acc2
          | .ok true => extractAllLoop now mp rest (n + 1) acc2

/-- `extract_all_orders` of `src/amazon_order_extractor.py`. -/
def extract_all_orders (now : Date) (mp : Option Nat) (pages : List PageView) :
    Except NavErr (List Order) :=
  extractAllLoop now mp pages 1 []

/-- The full-scan branch of `run`: when `extract_all_orders` raises, the
top-level handler catches and no output is written (`none`); an empty result
is also not written; otherwise the accumulated orders are exported. -/
def runFullScan (now : Date) (mp : Option Nat) (pages : List PageView) :
    Option (List Order) :=
  match extract_all_orders now mp pages with
  | .error _ => none
  | .ok os => if os.isEmpty then none else some os

/-- The accumulation loop shared by `search_all_target_orders` (per search)
and `filter_target_orders`: each order is appended exactly when its id is a
target and not yet in the found set, in which case the id enters the found
set. -/
def addOrders (targets : List String) :
    List Order → List String → List Order → List Order × List String
  | acc, found, [] => (acc, found)
  | acc, found, o :: os =>
    if o.order_id ∈ targets ∧ o.order_id ∉ found
    then addOrders targets (acc ++ [o]) (o.order_id :: found) os
    else addOrders targets acc found os

/-- The per-target loop of `search_all_target_orders`: for each target `t`
in turn, the orders its search-results page yields (`res t`) run through the
found-set accumulation. -/
def searchGo (targets : List String) (res : String → List Order) :
    List String → List Order → List String → List Order × List String
  | [], acc, found => (acc, found)
  | t :: ts, acc, found =>
    searchGo targets res ts
      (addOrders targets acc found (res t)).1 (addOrders targets acc found (res t)).2

/-- `search_all_target_orders`: each target id is searched in turn and the
matching unfound orders accumulate. -/
def searchAllTargetOrders (targets : List String) (res : String → List Order) :
    List Order × List String :=
  searchGo targets res targets [] []

/-- `filter_target_orders`: with no targets all orders pass unfiltered;
otherwise the found-set accumulation runs over the scanned orders. -/
def filter_target_orders (targets : List String) (found : List String)
    (allOrders : List Order) : List Order × List String :=
  if targets = [] then (allOrders, found)
  else addOrders targets [] found allOrders

/-- The targeted-search branch of `run`: the search pass, then — exactly when
some target is still unfound — a fallback full scan (whose extracted orders
are `scan`) filtered against the remaining targets; the final record set is
the concatenation. -/
def runTargeted (targets : List String) (res : String → List Order)
    (scan : List Order) : List Order :=
  let os1 := (searchAllTargetOrders targets res).1
  let found1 := (searchAllTargetOrders targets res).2
  let missing := targets.filter (fun t => t ∉ found1)
  if missing = [] then os1
  else os1 ++ (filter_target_orders targets found1 scan).1

/-- Spec-side reading of "contains a substring matching `\d+-\d+-\d+`": some
decomposition exhibits three nonempty digit runs separated by hyphens. -/
def hasIdSub (cs : List Char) : Prop :=
  ∃ u a b c v, cs = u ++ (a ++ '-' :: (b ++ '-' :: (c ++ v))) ∧
    a ≠ [] ∧ b ≠ [] ∧ c ≠ [] ∧
    (∀ x ∈ a, isDigitC x = true) ∧ (∀ x ∈ b, isDigitC x = true) ∧
    (∀ x ∈ c, isDigitC x = true)

/-- Spec-side reading of "contains a digits-dot-digits pattern": some digit
is immediately followed by a dot and a digit. -/
def hasDDD (cs : List Char) : Prop :=
  ∃ u d1 d2 v, cs = u ++ d1 :: '.' :: d2 :: v ∧ isDigitC d1 = true ∧ isDigitC d2 = true

/-- Spec-side reading of "contains `/([A-Z0-9]{10})(?:/|\?|$)`": a slash,
ten `[A-Z0-9]` characters, then a slash, a question mark or the end. -/
def hasAsinSub (cs : List Char) : Prop :=
  ∃ u t v, cs = u ++ '/' :: (t ++ v) ∧ t.length = 10 ∧ (∀ x ∈ t, isAsinChar x = true) ∧
    (v = [] ∨ ∃ c v2, v = c :: v2 ∧ (c = '/' ∨ c = '?'))

/-- A page on which the full-scan loop reads the orders and successfully
advances: container present, "next" present and enabled, advance succeeds. -/
def goodAdvance (p : PageView) : Prop :=
  p.containerOk = true ∧ p.nextPresent = true ∧ p.nextDisabled = false ∧ p.advanceOk = true

/-- A page on which the loop reads the orders, sees an enabled "next"
control, and then the advance (click / wait) raises. -/
def badAdvance (p : PageView) : Prop :=
  p.containerOk = true ∧ p.nextPresent = true ∧ p.nextDisabled = false ∧ p.advanceOk = false

/-! ### Helper lemmas on characters and scanning -/

theorem mk_eq_empty {l : List Char} : (String.mk l = "") ↔ l = [] := by
  constructor
  · intro h
    have h2 := congrArg String.data h
    simpa using h2
  · intro h
    subst h
    rfl

theorem not_isWSC_of_isDigitC {c : Char} (h : isDigitC c = true) : isWSC c = false := by
  simp only [isDigitC, Bool.and_eq_true, decide_eq_true_eq] at h
  simp only [isWSC, Bool.or_eq_false_iff, decide_eq_false_iff_not]
  omega

theorem toNat_ne160_of_not_isWSC {c : Char} (h : isWSC c = false) : c.toNat ≠ 160 := by
  simp only [isWSC, Bool.or_eq_false_iff, decide_eq_false_iff_not] at h
  exact h.2

theorem takeWhile_app {p : Char → Bool} :
    ∀ (a b : List Char), (∀ c ∈ a, p c = true) → (∀ c, b.head? = some c → p c = false) →
    (a ++ b).takeWhile p = a := by
  intro a
  induction a with
  | nil =>
    intro b _ hb
    cases b with
    | nil => rfl
    | cons c cs =>
      simp [List.takeWhile_cons, hb c rfl]
  | cons x xs ih =>
    intro b ha hb
    simp only [List.cons_append, List.takeWhile_cons, ha x (List.mem_cons_self x xs)]
    simp only [if_true]
    rw [ih b (fun c hc => ha c (List.mem_cons_of_mem x hc)) hb]

theorem dropWhile_app {p : Char → Bool} :
    ∀ (a b : List Char), (∀ c ∈ a, p c = true) → (∀ c, b.head? = some c → p c = false) →
    (a ++ b).dropWhile p = b := by
  intro a
  induction a with
  | nil =>
    intro b _ hb
    cases b with
    | nil => rfl
    | cons c cs =>
      simp only [List.nil_append, List.dropWhile_cons, hb c rfl, if_neg]
      simp
  | cons x xs ih =>
    intro b ha hb
    simp only [List.cons_append, List.dropWhile_cons, ha x (List.mem_cons_self x xs)]
    simp only [if_pos]
    exact ih b (fun c hc => ha c (List.mem_cons_of_mem x hc)) hb

theorem dropWhile_id_of_head {p : Char → Bool} (l : List Char)
    (h : ∀ c, l.head? = some c → p c = false) : l.dropWhile p = l := by
  cases l with
  | nil => rfl
  | cons c cs =>
    simp only [List.dropWhile_cons, h c rfl]
    simp

/-! ### C3: extract_quantity -/

theorem firstNumRun_decomp (p ds q : List Char)
    (hp : ∀ c ∈ p, isDigitC c = false) (hds : ds ≠ [])
    (hd : ∀ c ∈ ds, isDigitC c = true) (hq : ∀ c, q.head? = some c → isDigitC c = false) :
    firstNumRun (p ++ (ds ++ q)) = some ds := by
  induction p with
  | nil =>
    cases ds with
    | nil => exact absurd rfl hds
    | cons d ds' =>
      simp only [List.nil_append, List.cons_append, firstNumRun,
        hd d (List.mem_cons_self d ds'), if_pos]
      show some (d :: List.takeWhile isDigitC (ds' ++ q)) = some (d :: ds')
      rw [takeWhile_app ds' q (fun c hc => hd c (List.mem_cons_of_mem d hc)) hq]
  | cons x xs ih =>
    simp only [List.cons_append, firstNumRun, hp x (List.mem_cons_self x xs)]
    simp only [Bool.false_eq_true, if_false]
    exact ih (fun c hc => hp c (List.mem_cons_of_mem x hc))

theorem firstNumRun_none (cs : List Char) (h : ∀ c ∈ cs, isDigitC c = false) :
    firstNumRun cs = none := by
  induction cs with
  | nil => rfl
  | cons c cs' ih =>
    simp only [firstNumRun, h c (List.mem_cons_self c cs'), Bool.false_eq_true, if_false]
    exact ih (fun x hx => h x (List.mem_cons_of_mem c hx))

/-- C3 (amended): `extract_quantity` returns the value of the first integer
substring of the input when one is present — formalized by the decomposition
`p ++ ds ++ q` with `p` digit-free, `ds` a nonempty digit run, and `q` not
starting with a digit — and the default 1 on empty or digit-free input; the
spec's worked examples hold.  (The unconditional "at least 1" of the original
claim fails: the first integer substring may be 0, see the counterexample.) -/
theorem c3_quantity_first_integer (p ds q : List Char)
    (hp : ∀ c ∈ p, isDigitC c = false) (hds : ds ≠ [])
    (hd : ∀ c ∈ ds, isDigitC c = true) (hq : ∀ c, q.head? = some c → isDigitC c = false) :
    extract_quantity ⟨p ++ (ds ++ q)⟩ = digitsToNat ds ∧
    (∀ s : String, (∀ c ∈ s.data, isDigitC c = false) → extract_quantity s = 1) ∧
    extract_quantity "Quantity: 3 items" = 3 ∧
    extract_quantity "" = 1 := by
  refine ⟨?_, ?_, by decide, rfl⟩
  · have hne : p ++ (ds ++ q) ≠ [] := by
      intro h
      rcases List.append_eq_nil.mp h with ⟨-, h2⟩
      exact hds (List.append_eq_nil.mp h2).1
    unfold extract_quantity
    rw [if_neg (fun h => hne (mk_eq_empty.mp h))]
    have : (String.mk (p ++ (ds ++ q))).data = p ++ (ds ++ q) := rfl
    rw [this, firstNumRun_decomp p ds q hp hds hd hq]
  · intro s hs
    unfold extract_quantity
    by_cases h0 : s = ""
    · rw [if_pos h0]
    · rw [if_neg h0, firstNumRun_none s.data hs]

/-- C3 counterexample: on `"Quantity: 0 items"` the first integer substring
is `0`, so `extract_quantity` returns `0`, which is not at least 1 — refuting
the claim's unconditional lower bound. -/
theorem c3_quantity_counterexample :
    extract_quantity "Quantity: 0 items" = 0 ∧ ¬ (1 ≤ extract_quantity "Quantity: 0 items") := by
  constructor
  · decide
  · decide

/-- Witness for C3 at the spec's worked example. -/
theorem c3_quantity_witness :
    extract_quantity ⟨"Quantity: ".data ++ (['3'] ++ " items".data)⟩ = digitsToNat ['3'] :=
  (c3_quantity_first_integer "Quantity: ".data ['3'] " items".data
    (by decide) (by decide) (by decide) (by decide)).1

/-! ### C4: extract_order_id -/

theorem isEmpty_false_of_ne {l : List Char} (h : l ≠ []) : l.isEmpty = false := by
  cases l with
  | nil => exact absurd rfl h
  | cons a t => rfl

theorem ne_nil_of_isEmpty_false {l : List Char} (h : ¬ l.isEmpty = true) : l ≠ [] := by
  intro h2
  subst h2
  exact h rfl

theorem head_hyphen_not_digit (r : List Char) :
    ∀ c, (('-' :: r).head? = some c) → isDigitC c = false := by
  intro c h
  simp only [List.head?_cons, Option.some.injEq] at h
  subst h
  decide

theorem matchIdAt_pos (d1 d2 d3 q : List Char)
    (h1 : d1 ≠ []) (hd1 : ∀ c ∈ d1, isDigitC c = true)
    (h2 : d2 ≠ []) (hd2 : ∀ c ∈ d2, isDigitC c = true)
    (h3 : d3 ≠ []) (hd3 : ∀ c ∈ d3, isDigitC c = true)
    (hq : ∀ c, q.head? = some c → isDigitC c = false) :
    matchIdAt (d1 ++ '-' :: (d2 ++ '-' :: (d3 ++ q))) =
      some (d1 ++ '-' :: (d2 ++ '-' :: d3)) := by
  simp only [matchIdAt]
  rw [takeWhile_app d1 ('-' :: (d2 ++ '-' :: (d3 ++ q))) hd1 (head_hyphen_not_digit _),
      dropWhile_app d1 ('-' :: (d2 ++ '-' :: (d3 ++ q))) hd1 (head_hyphen_not_digit _),
      isEmpty_false_of_ne h1]
  simp only [Bool.false_eq_true, if_false, idTail1, if_pos]
  rw [takeWhile_app d2 ('-' :: (d3 ++ q)) hd2 (head_hyphen_not_digit _),
      dropWhile_app d2 ('-' :: (d3 ++ q)) hd2 (head_hyphen_not_digit _),
      isEmpty_false_of_ne h2]
  simp only [Bool.false_eq_true, if_false, idTail2, if_pos]
  rw [takeWhile_app d3 q hd3 hq, isEmpty_false_of_ne h3]
  simp

theorem matchIdAt_nondigit {c : Char} (h : isDigitC c = false) (rest : List Char) :
    matchIdAt (c :: rest) = none := by
  simp only [matchIdAt, List.takeWhile_cons, h]
  simp

theorem findId_pos (p d1 d2 d3 q : List Char) (hp : ∀ c ∈ p, isDigitC c = false)
    (h1 : d1 ≠ []) (hd1 : ∀ c ∈ d1, isDigitC c = true)
    (h2 : d2 ≠ []) (hd2 : ∀ c ∈ d2, isDigitC c = true)
    (h3 : d3 ≠ []) (hd3 : ∀ c ∈ d3, isDigitC c = true)
    (hq : ∀ c, q.head? = some c → isDigitC c = false) :
    findId (p ++ (d1 ++ '-' :: (d2 ++ '-' :: (d3 ++ q)))) =
      some (d1 ++ '-' :: (d2 ++ '-' :: d3)) := by
  induction p with
  | nil =>
    have hm := matchIdAt_pos d1 d2 d3 q h1 hd1 h2 hd2 h3 hd3 hq
    obtain ⟨x, xs, hx⟩ := List.exists_cons_of_ne_nil h1
    subst hx
    simp only [List.cons_append] at hm ⊢
    simp only [List.nil_append, findId, hm]
  | cons c p' ih =>
    simp only [List.cons_append, findId,
      matchIdAt_nondigit (hp c (List.mem_cons_self c p')) _]
    exact ih (fun x hx => hp x (List.mem_cons_of_mem c hx))

theorem matchIdAt_sub_isSome (a b c v : List Char)
    (ha : a ≠ []) (hda : ∀ x ∈ a, isDigitC x = true)
    (hb : b ≠ []) (hdb : ∀ x ∈ b, isDigitC x = true)
    (hc : c ≠ []) (hdc : ∀ x ∈ c, isDigitC x = true) :
    (matchIdAt (a ++ '-' :: (b ++ '-' :: (c ++ v)))).isSome = true := by
  simp only [matchIdAt]
  rw [takeWhile_app a ('-' :: (b ++ '-' :: (c ++ v))) hda (head_hyphen_not_digit _),
      dropWhile_app a ('-' :: (b ++ '-' :: (c ++ v))) hda (head_hyphen_not_digit _),
      isEmpty_false_of_ne ha]
  simp only [Bool.false_eq_true, if_false, idTail1, if_pos]
  rw [takeWhile_app b ('-' :: (c ++ v)) hdb (head_hyphen_not_digit _),
      dropWhile_app b ('-' :: (c ++ v)) hdb (head_hyphen_not_digit _),
      isEmpty_false_of_ne hb]
  simp only [Bool.false_eq_true, if_false, idTail2, if_pos]
  obtain ⟨c0, cs', hc0⟩ := List.exists_cons_of_ne_nil hc
  subst hc0
  simp [List.takeWhile_cons, hdc c0 (List.mem_cons_self c0 cs')]

theorem findId_of_sub (cs : List Char) (h : hasIdSub cs) : (findId cs).isSome = true := by
  obtain ⟨u, a, b, c, v, heq, ha, hb, hc, hda, hdb, hdc⟩ := h
  subst heq
  induction u with
  | nil =>
    have hm := matchIdAt_sub_isSome a b c v ha hda hb hdb hc hdc
    obtain ⟨x, xs, hx⟩ := List.exists_cons_of_ne_nil ha
    subst hx
    simp only [List.cons_append] at hm ⊢
    simp only [List.nil_append, findId]
    rcases hmm : matchIdAt (x :: (xs ++ '-' :: (b ++ '-' :: (c ++ v)))) with _ | m
    · rw [hmm] at hm
      simp at hm
    · rfl
  | cons x u' ih =>
    simp only [List.cons_append, findId]
    rcases hmm : matchIdAt (x :: (u' ++ (a ++ '-' :: (b ++ '-' :: (c ++ v))))) with _ | m
    · exact ih
    · rfl

theorem matchIdAt_decomp (cs m : List Char) (h : matchIdAt cs = some m) :
    ∃ a b c v, cs = a ++ '-' :: (b ++ '-' :: (c ++ v)) ∧
      a ≠ [] ∧ b ≠ [] ∧ c ≠ [] ∧
      (∀ x ∈ a, isDigitC x = true) ∧ (∀ x ∈ b, isDigitC x = true) ∧
      (∀ x ∈ c, isDigitC x = true) ∧ m = a ++ '-' :: (b ++ '-' :: c) := by
  simp only [matchIdAt] at h
  split at h
  · exact absurd h (by simp)
  · rename_i ha
    rcases h1 : cs.dropWhile isDigitC with _ | ⟨c1, r2⟩
    · rw [h1] at h
      simp [idTail1] at h
    · rw [h1] at h
      simp only [idTail1] at h
      split at h
      · rename_i hc1
        subst hc1
        split at h
        · exact absurd h (by simp)
        · rename_i hb
          rcases h2 : r2.dropWhile isDigitC with _ | ⟨c2, r4⟩
          · rw [h2] at h
            simp [idTail2] at h
          · rw [h2] at h
            simp only [idTail2] at h
            split at h
            · rename_i hc2
              subst hc2
              split at h
              · exact absurd h (by simp)
              · rename_i hcc
                simp only [Option.some.injEq] at h
                refine ⟨cs.takeWhile isDigitC, r2.takeWhile isDigitC,
                  r4.takeWhile isDigitC, r4.dropWhile isDigitC, ?_,
                  ne_nil_of_isEmpty_false ha, ne_nil_of_isEmpty_false hb,
                  ne_nil_of_isEmpty_false hcc,
                  fun x hx => List.mem_takeWhile_imp hx,
                  fun x hx => List.mem_takeWhile_imp hx,
                  fun x hx => List.mem_takeWhile_imp hx, h.symm⟩
                rw [List.takeWhile_append_dropWhile isDigitC r4,
                    ← h2, List.takeWhile_append_dropWhile isDigitC r2,
                    ← h1, List.takeWhile_append_dropWhile isDigitC cs]
            · exact absurd h (by simp)
      · exact absurd h (by simp)

theorem findId_decomp (cs m : List Char) (h : findId cs = some m) : hasIdSub cs := by
  induction cs with
  | nil => simp [findId] at h
  | cons c0 cs' ih =>
    simp only [findId] at h
    rcases hm : matchIdAt (c0 :: cs') with _ | m2
    · rw [hm] at h
      obtain ⟨u, a, b, c, v, heq, rest⟩ := ih h
      exact ⟨c0 :: u, a, b, c, v, by rw [List.cons_append, ← heq], rest⟩
    · obtain ⟨a, b, c, v, heq, ha, hb, hc, hda, hdb, hdc, -⟩ :=
        matchIdAt_decomp (c0 :: cs') m2 hm
      exact ⟨[], a, b, c, v, by rw [List.nil_append, heq], ha, hb, hc, hda, hdb, hdc⟩

/-- C4 (amended): when the text before a well-formed order id contains no
digit and the id is not immediately followed by a digit, `extract_order_id`
returns exactly the id; and on any input with no `\d+-\d+-\d+` substring it
returns the cleaned raw text.  (The original claim's "arbitrary surrounding
text" fails when adjacent digits extend the leftmost-greedy match, see the
counterexample.) -/
theorem c4_order_id_extraction (p d1 d2 d3 q : List Char)
    (hp : ∀ c ∈ p, isDigitC c = false)
    (h1 : d1 ≠ []) (hd1 : ∀ c ∈ d1, isDigitC c = true)
    (h2 : d2 ≠ []) (hd2 : ∀ c ∈ d2, isDigitC c = true)
    (h3 : d3 ≠ []) (hd3 : ∀ c ∈ d3, isDigitC c = true)
    (hq : ∀ c, q.head? = some c → isDigitC c = false) :
    extract_order_id ⟨p ++ (d1 ++ '-' :: (d2 ++ '-' :: (d3 ++ q)))⟩ =
      ⟨d1 ++ '-' :: (d2 ++ '-' :: d3)⟩ ∧
    (∀ s : String, ¬ hasIdSub s.data → extract_order_id s = clean_text s) := by
  constructor
  · have hne : p ++ (d1 ++ '-' :: (d2 ++ '-' :: (d3 ++ q))) ≠ [] := by
      intro hcon
      rcases List.append_eq_nil.mp hcon with ⟨-, h2c⟩
      exact h1 (List.append_eq_nil.mp h2c).1
    unfold extract_order_id
    rw [if_neg (fun hcon => hne (mk_eq_empty.mp hcon))]
    have hdata : (String.mk (p ++ (d1 ++ '-' :: (d2 ++ '-' :: (d3 ++ q))))).data =
        p ++ (d1 ++ '-' :: (d2 ++ '-' :: (d3 ++ q))) := rfl
    rw [hdata, findId_pos p d1 d2 d3 q hp h1 hd1 h2 hd2 h3 hd3 hq]
  · intro s hs
    by_cases h0 : s = ""
    · subst h0
      rfl
    · unfold extract_order_id
      rw [if_neg h0]
      rcases hf : findId s.data with _ | m
      · rfl
      · exact absurd (findId_decomp _ _ hf) hs

/-- C4 counterexample: `"5123-4567890-1234567"` embeds the well-formed id
`123-4567890-1234567` (shape NNN-NNNNNNN-NNNNNNN) with a digit in the
surrounding text, but the leftmost-greedy match returns the whole string,
not the embedded id. -/
theorem c4_order_id_counterexample :
    ("5123-4567890-1234567" : String) = "5" ++ "123-4567890-1234567" ++ "" ∧
    extract_order_id "5123-4567890-1234567" = "5123-4567890-1234567" ∧
    extract_order_id "5123-4567890-1234567" ≠ "123-4567890-1234567" := by
  refine ⟨by decide, by decide, by decide⟩

/-- Witness for C4 at the docstring's example text. -/
theorem c4_order_id_witness :
    extract_order_id ⟨"Order # ".data ++ (['1','2','3'] ++ '-' ::
        (['4','5','6','7','8','9','0'] ++ '-' :: (['1','2','3','4','5','6','7'] ++ [])))⟩ =
      ⟨['1','2','3'] ++ '-' :: (['4','5','6','7','8','9','0'] ++ '-' :: ['1','2','3','4','5','6','7'])⟩ :=
  (c4_order_id_extraction "Order # ".data ['1','2','3'] ['4','5','6','7','8','9','0']
    ['1','2','3','4','5','6','7'] [] (by decide) (by decide) (by decide) (by decide)
    (by decide) (by decide) (by decide) (by decide)).1

/-! ### C5: extract_price -/

theorem digitsFold (b : List Char) :
    ∀ v : Nat, b.foldl (fun a c => a * 10 + charVal c) v =
      v * 10 ^ b.length + digitsToNat b := by
  induction b with
  | nil => intro v; simp [digitsToNat]
  | cons c b' ih =>
    intro v
    simp only [List.foldl_cons, List.length_cons]
    rw [ih (v * 10 + charVal c)]
    have hd : digitsToNat (c :: b') = charVal c * 10 ^ b'.length + digitsToNat b' := by
      have h0 : digitsToNat (c :: b') =
          List.foldl (fun a c => a * 10 + charVal c) (0 * 10 + charVal c) b' := rfl
      rw [h0, ih (0 * 10 + charVal c)]
      ring
    rw [hd]
    ring

theorem digitsToNat_append (a b : List Char) :
    digitsToNat (a ++ b) = digitsToNat a * 10 ^ b.length + digitsToNat b := by
  have h0 : digitsToNat (a ++ b) =
      List.foldl (fun a c => a * 10 + charVal c) (digitsToNat a) b := by
    simp only [digitsToNat, List.foldl_append]
  rw [h0, digitsFold b (digitsToNat a)]

theorem takeWhile_all {p : Char → Bool} (l : List Char) (h : ∀ c ∈ l, p c = true) :
    l.takeWhile p = l := by
  induction l with
  | nil => rfl
  | cons c l' ih =>
    simp only [List.takeWhile_cons, h c (List.mem_cons_self c l'), if_true]
    rw [ih (fun x hx => h x (List.mem_cons_of_mem c hx))]

theorem priceClass_of_digit {c : Char} (h : isDigitC c = true) : isPriceClass c = true := by
  simp [isPriceClass, h]

theorem head_dot_not_price (r : List Char) :
    ∀ c, (('.' :: r).head? = some c) → isPriceClass c = false := by
  intro c h
  simp only [List.head?_cons, Option.some.injEq] at h
  subst h
  decide

theorem matchPriceAt_pos (w f : List Char)
    (hw : w ≠ []) (hwc : ∀ c ∈ w, isPriceClass c = true)
    (hf : f ≠ []) (hfd : ∀ c ∈ f, isDigitC c = true) :
    matchPriceAt (w ++ '.' :: f) = some (w, f) := by
  simp only [matchPriceAt]
  rw [takeWhile_app w ('.' :: f) hwc (head_dot_not_price _),
      dropWhile_app w ('.' :: f) hwc (head_dot_not_price _),
      isEmpty_false_of_ne hw]
  simp only [Bool.false_eq_true, if_false, priceTail, if_pos]
  rw [takeWhile_all f hfd, isEmpty_false_of_ne hf]
  simp

theorem matchPriceAt_notclass {c : Char} (h : isPriceClass c = false) (rest : List Char) :
    matchPriceAt (c :: rest) = none := by
  simp only [matchPriceAt, List.takeWhile_cons, h]
  simp

theorem findPrice_dollar_digits (x3 yy : List Char)
    (hx3 : x3 ≠ []) (hxd : ∀ c ∈ x3, isDigitC c = true)
    (hy : yy ≠ []) (hyd : ∀ c ∈ yy, isDigitC c = true) :
    findPrice ('$' :: (x3 ++ '.' :: yy)) = some (x3, yy) := by
  have hm0 : matchPriceAt ('$' :: (x3 ++ '.' :: yy)) = none :=
    matchPriceAt_notclass (by decide) _
  simp only [findPrice, hm0]
  have hm := matchPriceAt_pos x3 yy hx3 (fun c hc => priceClass_of_digit (hxd c hc)) hy hyd
  obtain ⟨x0, xs, hx0⟩ := List.exists_cons_of_ne_nil hx3
  subst hx0
  simp only [List.cons_append] at hm ⊢
  simp only [findPrice, hm]

theorem matchPriceAt_decomp (cs : List Char) (w f : List Char)
    (h : matchPriceAt cs = some (w, f)) :
    ∃ v, cs = w ++ '.' :: (f ++ v) ∧ w ≠ [] ∧ f ≠ [] ∧
      (∀ c ∈ w, isPriceClass c = true) ∧ (∀ c ∈ f, isDigitC c = true) := by
  simp only [matchPriceAt] at h
  split at h
  · exact absurd h (by simp)
  · rename_i hw
    rcases h1 : cs.dropWhile isPriceClass with _ | ⟨c1, r2⟩
    · rw [h1] at h
      simp [priceTail] at h
    · rw [h1] at h
      simp only [priceTail] at h
      split at h
      · rename_i hc1
        subst hc1
        split at h
        · exact absurd h (by simp)
        · rename_i hfne
          simp only [Option.some.injEq, Prod.mk.injEq] at h
          obtain ⟨hw2, hf2⟩ := h
          subst hw2
          refine ⟨r2.dropWhile isDigitC, ?_, ne_nil_of_isEmpty_false hw, ?_,
            fun c hc => List.mem_takeWhile_imp hc, ?_⟩
          · rw [← hf2, List.takeWhile_append_dropWhile isDigitC r2, ← h1,
              List.takeWhile_append_dropWhile isPriceClass cs]
          · rw [← hf2]
            exact ne_nil_of_isEmpty_false hfne
          · intro c hc
            rw [← hf2] at hc
            exact List.mem_takeWhile_imp hc
      · exact absurd h (by simp)

theorem findPrice_decomp (cs : List Char) (w f : List Char) (h : findPrice cs = some (w, f)) :
    ∃ u v, cs = u ++ (w ++ '.' :: (f ++ v)) ∧ w ≠ [] ∧ f ≠ [] ∧
      (∀ c ∈ w, isPriceClass c = true) ∧ (∀ c ∈ f, isDigitC c = true) := by
  induction cs with
  | nil => simp [findPrice] at h
  | cons c0 cs' ih =>
    simp only [findPrice] at h
    rcases hm : matchPriceAt (c0 :: cs') with _ | m2
    · rw [hm] at h
      obtain ⟨u, v, heq, rest⟩ := ih h
      exact ⟨c0 :: u, v, by rw [List.cons_append, ← heq], rest⟩
    · rw [hm] at h
      simp only [Option.some.injEq] at h
      subst h
      obtain ⟨v, heq, rest⟩ := matchPriceAt_decomp (c0 :: cs') w f hm
      exact ⟨[], v, by rw [List.nil_append, heq], rest⟩

theorem mem_stripCommas {cs : List Char} {c : Char} (h : c ∈ stripCommas cs) : c ≠ ',' := by
  have := List.of_mem_filter h
  simpa using this

theorem digit_of_priceClass_ne_comma {c : Char} (h1 : isPriceClass c = true) (h2 : c ≠ ',') :
    isDigitC c = true := by
  simp only [isPriceClass, Bool.or_eq_true] at h1
  rcases h1 with h | h
  · exact h
  · simp only [decide_eq_true_eq] at h
    exact absurd h h2

/-- C5: on a price string of the form `$X,XXX.YY` (a currency symbol, a
nonempty digit group `X`, a comma, a three-digit group `XXX`, a dot, a
nonempty digit group `YY`), `extract_price` returns the exact decimal value
`X*1000 + XXX + 0.YY`; on any input with no digits-dot-digits pattern after
comma removal, and on empty input, it returns `none` — never zero. -/
theorem c5_price_extraction (x x3 yy : List Char)
    (hx : x ≠ []) (hxd : ∀ c ∈ x, isDigitC c = true)
    (h3 : x3.length = 3) (h3d : ∀ c ∈ x3, isDigitC c = true)
    (hy : yy ≠ []) (hyd : ∀ c ∈ yy, isDigitC c = true) :
    extract_price ⟨'$' :: (x ++ ',' :: (x3 ++ '.' :: yy))⟩ =
      some ((digitsToNat x : ℚ) * 1000 + (digitsToNat x3 : ℚ) +
        (digitsToNat yy : ℚ) / (10 : ℚ) ^ yy.length) ∧
    (∀ s : String, ¬ hasDDD (stripCommas s.data) → extract_price s = none) ∧
    extract_price "" = none := by
  refine ⟨?_, ?_, rfl⟩
  · unfold extract_price
    rw [if_neg (fun hcon => List.cons_ne_nil _ _ (mk_eq_empty.mp hcon))]
    have hdata : (String.mk ('$' :: (x ++ ',' :: (x3 ++ '.' :: yy)))).data =
        '$' :: (x ++ ',' :: (x3 ++ '.' :: yy)) := rfl
    rw [hdata]
    have hstrip : stripCommas ('$' :: (x ++ ',' :: (x3 ++ '.' :: yy))) =
        '$' :: ((x ++ x3) ++ '.' :: yy) := by
      have hfil : ∀ (l : List Char), (∀ c ∈ l, isDigitC c = true) →
          l.filter (fun c => !decide (c = ',')) = l := by
        intro l hl
        apply List.filter_eq_self.mpr
        intro c hc
        simp only [Bool.not_eq_true', decide_eq_false_iff_not]
        intro hcc
        subst hcc
        exact absurd (hl _ hc) (by decide)
      simp only [stripCommas, List.filter_cons, List.filter_append]
      simp [hfil x hxd, hfil x3 h3d, hfil yy hyd, List.append_assoc]
    rw [hstrip]
    have hxx3 : x ++ x3 ≠ [] := by
      intro hcon
      exact hx (List.append_eq_nil.mp hcon).1
    have hxx3d : ∀ c ∈ x ++ x3, isDigitC c = true := by
      intro c hc
      rcases List.mem_append.mp hc with h | h
      · exact hxd c h
      · exact h3d c h
    rw [findPrice_dollar_digits (x ++ x3) yy hxx3 hxx3d hy hyd]
    show some ((digitsToNat (x ++ x3) : ℚ) + (digitsToNat yy : ℚ) / (10 : ℚ) ^ yy.length) = _
    congr 1
    rw [digitsToNat_append x x3, h3]
    push_cast
    ring
  · intro s hs
    unfold extract_price
    by_cases h0 : s = ""
    · rw [if_pos h0]
    · rw [if_neg h0]
      rcases hf : findPrice (stripCommas s.data) with _ | ⟨w, f⟩
      · rfl
      · exfalso
        obtain ⟨u, v, heq, hw, hfne, hwc, hfd⟩ := findPrice_decomp _ w f hf
        obtain ⟨w', dl, hw'⟩ := (List.eq_nil_or_concat w).resolve_left hw
        obtain ⟨d2, f', hf'⟩ := List.exists_cons_of_ne_nil hfne
        apply hs
        refine ⟨u ++ w', dl, d2, f' ++ v, ?_, ?_, ?_⟩
        · rw [heq, hw', hf']
          simp [List.append_assoc]
        · have hdl : dl ∈ stripCommas s.data := by
            rw [heq, hw']
            simp
          exact digit_of_priceClass_ne_comma
            (hwc dl (by rw [hw']; simp)) (mem_stripCommas hdl)
        · exact hfd d2 (by rw [hf']; simp)

/-- Witness for C5 at `$1,234.56`. -/
theorem c5_price_witness :
    extract_price ⟨'$' :: (['1'] ++ ',' :: (['2','3','4'] ++ '.' :: ['5','6']))⟩ =
      some ((digitsToNat ['1'] : ℚ) * 1000 + (digitsToNat ['2','3','4'] : ℚ) +
        (digitsToNat ['5','6'] : ℚ) / (10 : ℚ) ^ (['5','6'] : List Char).length) :=
  (c5_price_extraction ['1'] ['2','3','4'] ['5','6'] (by decide) (by decide)
    (by decide) (by decide) (by decide) (by decide)).1

/-! ### C6: extract_date — token-level lemmas -/

theorem isDigitC_digitChar : ∀ k, isDigitC (digitChar k) = true := by
  intro k
  rcases k with _|_|_|_|_|_|_|_|_|k <;> rfl

theorem isWSC_digitChar : ∀ k, isWSC (digitChar k) = false := by
  intro k
  rcases k with _|_|_|_|_|_|_|_|_|k <;> rfl

theorem toNat_digitChar_ne160 : ∀ k, (digitChar k).toNat ≠ 160 := by
  intro k
  rcases k with _|_|_|_|_|_|_|_|_|k
  · decide
  · decide
  · decide
  · decide
  · decide
  · decide
  · decide
  · decide
  · decide
  · show ('9' : Char).toNat ≠ 160
    decide

theorem charVal_digitChar {k : Nat} (h : k < 10) : charVal (digitChar k) = k := by
  interval_cases k <;> rfl

theorem parseDayTok_digit2 {d : Nat} (h1 : 1 ≤ d) (h2 : d ≤ 31) (r : List Char) :
    parseDayTok (digit2 d ++ r) = some (d, r) := by
  interval_cases d <;> rfl

theorem parseMonthNumTok_digit2 {m : Nat} (h1 : 1 ≤ m) (h2 : m ≤ 12) (r : List Char) :
    parseMonthNumTok (digit2 m ++ r) = some (m, r) := by
  interval_cases m <;> rfl

theorem parseY4_digit4 {y : Nat} (h : y ≤ 9999) (r : List Char) :
    parseY4 (digit4 y ++ r) = some (y, r) := by
  show parseY4 (digitChar (y / 1000) :: digitChar (y / 100 % 10) ::
    digitChar (y / 10 % 10) :: digitChar (y % 10) :: r) = some (y, r)
  simp only [parseY4, isDigitC_digitChar, Bool.and_self, if_true]
  rw [charVal_digitChar (by omega), charVal_digitChar (by omega),
      charVal_digitChar (by omega), charVal_digitChar (by omega)]
  have : y / 1000 * 1000 + y / 100 % 10 * 100 + y / 10 % 10 * 10 + y % 10 = y := by omega
  rw [this]

theorem skipWS1_space (r : List Char) (h : ∀ c, r.head? = some c → isWSC c = false) :
    skipWS1 (' ' :: r) = some r := by
  simp only [skipWS1]
  rw [if_pos (by decide)]
  rw [dropWhile_id_of_head r h]

theorem parseB_name {m : Nat} (h1 : 1 ≤ m) (h2 : m ≤ 12) (r : List Char) :
    parseMonthTbl monthTableB (monthNameChars m ++ r) = some (m, r) := by
  interval_cases m <;> rfl

theorem parseb_name {m : Nat} (h1 : 1 ≤ m) (h2 : m ≤ 12) (r : List Char) :
    parseMonthTbl monthTableb (monthAbbrChars m ++ r) = some (m, r) := by
  interval_cases m <;> rfl

theorem parseB_abbr_ne5 {m : Nat} (h1 : 1 ≤ m) (h2 : m ≤ 12) (h5 : m ≠ 5) (r : List Char) :
    parseMonthTbl monthTableB (monthAbbrChars m ++ ' ' :: r) = none := by
  interval_cases m
  · rfl
  · rfl
  · rfl
  · rfl
  · exact absurd rfl h5
  · rfl
  · rfl
  · rfl
  · rfl
  · rfl
  · rfl
  · rfl

theorem parseB_abbr5 (r : List Char) :
    parseMonthTbl monthTableB (monthAbbrChars 5 ++ ' ' :: r) = some (5, ' ' :: r) := rfl

theorem lc_digit {c : Char} (h : isDigitC c = true) : lc c = c := by
  simp only [isDigitC, Bool.and_eq_true, decide_eq_true_eq] at h
  unfold lc
  rw [if_neg]
  omega

theorem matchCI_cons_ne {p c : Char} (h : lc p ≠ lc c) (ps cs : List Char) :
    matchCI (p :: ps) (c :: cs) = none := by
  simp only [matchCI]
  exact if_neg h

theorem parseMonthTbl_digit_head (tbl : List (List Char × Nat))
    (htbl : ∀ e ∈ tbl, ∃ p ps, e.1 = p :: ps ∧ 97 ≤ (lc p).toNat ∧ (lc p).toNat ≤ 122)
    {c : Char} (hc : isDigitC c = true) (r : List Char) :
    parseMonthTbl tbl (c :: r) = none := by
  induction tbl with
  | nil => rfl
  | cons e rest ih =>
    obtain ⟨nm, idx⟩ := e
    obtain ⟨p, ps, hp, hlo, hhi⟩ := htbl (nm, idx) (List.mem_cons_self _ _)
    simp only at hp
    subst hp
    have hne : lc p ≠ lc c := by
      rw [lc_digit hc]
      intro heq
      have hcv : (lc p).toNat = c.toNat := by rw [heq]
      simp only [isDigitC, Bool.and_eq_true, decide_eq_true_eq] at hc
      omega
    simp only [parseMonthTbl, matchCI_cons_ne hne]
    exact ih (fun e he => htbl e (List.mem_cons_of_mem _ he))

theorem monthTableB_heads :
    ∀ e ∈ monthTableB, ∃ p ps, e.1 = p :: ps ∧ 97 ≤ (lc p).toNat ∧ (lc p).toNat ≤ 122 := by
  intro e he
  fin_cases he <;> exact ⟨_, _, rfl, by decide, by decide⟩

theorem monthTableb_heads :
    ∀ e ∈ monthTableb, ∃ p ps, e.1 = p :: ps ∧ 97 ≤ (lc p).toNat ∧ (lc p).toNat ≤ 122 := by
  intro e he
  fin_cases he <;> exact ⟨_, _, rfl, by decide, by decide⟩

theorem monthName_shape : ∀ m, ∃ p ps,
    monthNameChars m = p :: ps ∧ isWSC p = false ∧ isDigitC p = false := by
  intro m
  rcases m with _|_|_|_|_|_|_|_|_|_|_|_|m <;> exact ⟨_, _, rfl, by decide, by decide⟩

theorem monthAbbr_shape : ∀ m, ∃ p ps,
    monthAbbrChars m = p :: ps ∧ isWSC p = false ∧ isDigitC p = false := by
  intro m
  rcases m with _|_|_|_|_|_|_|_|_|_|_|_|m <;> exact ⟨_, _, rfl, by decide, by decide⟩

theorem monthName_wsfree : ∀ m, ∀ c ∈ monthNameChars m, isWSC c = false := by
  intro m
  rcases m with _|_|_|_|_|_|_|_|_|_|_|_|m
  case succ.succ.succ.succ.succ.succ.succ.succ.succ.succ.succ.succ =>
    show ∀ c ∈ "December".data, isWSC c = false
    decide
  all_goals decide

theorem monthAbbr_wsfree : ∀ m, ∀ c ∈ monthAbbrChars m, isWSC c = false := by
  intro m
  rcases m with _|_|_|_|_|_|_|_|_|_|_|_|m
  case succ.succ.succ.succ.succ.succ.succ.succ.succ.succ.succ.succ =>
    show ∀ c ∈ "Dec".data, isWSC c = false
    decide
  all_goals decide

theorem digit2_wsfree (n : Nat) : ∀ c ∈ digit2 n, isWSC c = false := by
  intro c hc
  simp only [digit2, List.mem_cons, List.not_mem_nil, or_false] at hc
  rcases hc with h | h <;> (subst h; exact isWSC_digitChar _)

theorem digit4_wsfree (n : Nat) : ∀ c ∈ digit4 n, isWSC c = false := by
  intro c hc
  simp only [digit4, List.mem_cons, List.not_mem_nil, or_false] at hc
  rcases hc with h | h | h | h <;> (subst h; exact isWSC_digitChar _)

/-! ### C6: cleanliness of formatted dates under clean_text -/

theorem collapse_wsfree_app {a : List Char} (ha : ∀ c ∈ a, isWSC c = false) :
    ∀ r, collapseWSAux false (a ++ r) = a ++ collapseWSAux false r := by
  induction a with
  | nil => intro r; rfl
  | cons x xs ih =>
    intro r
    simp only [List.cons_append, collapseWSAux, ha x (List.mem_cons_self x xs),
      Bool.false_eq_true, if_false]
    show x :: collapseWSAux false (xs ++ r) = x :: (xs ++ collapseWSAux false r)
    rw [ih (fun c hc => ha c (List.mem_cons_of_mem x hc)) r]

theorem collapse_wsfree {a : List Char} (ha : ∀ c ∈ a, isWSC c = false) :
    collapseWSAux false a = a := by
  have h := collapse_wsfree_app ha []
  simpa [collapseWSAux] using h

theorem collapse_true_head {r : List Char} (h : ∀ c, r.head? = some c → isWSC c = false) :
    collapseWSAux true r = collapseWSAux false r := by
  cases r with
  | nil => rfl
  | cons c cs =>
    simp only [collapseWSAux, h c rfl, Bool.false_eq_true, if_false]

theorem collapse_space (r : List Char) :
    collapseWSAux false (' ' :: r) = ' ' :: collapseWSAux true r := rfl

theorem head_app_shape {a : List Char} {p : Char} {ps : List Char} (h : a = p :: ps)
    (hws : isWSC p = false) (r : List Char) :
    ∀ c, ((a ++ r).head? = some c) → isWSC c = false := by
  subst h
  intro c hc
  simp only [List.cons_append, List.head?_cons, Option.some.injEq] at hc
  subst hc
  exact hws

theorem stripEnds_id (cs : List Char)
    (hh : ∀ c, cs.head? = some c → isWSC c = false)
    (hl : ∀ c, cs.getLast? = some c → isWSC c = false) :
    stripEnds cs = cs := by
  unfold stripEnds
  rw [dropWhile_id_of_head cs hh]
  rw [dropWhile_id_of_head cs.reverse (fun c hc => hl c (by rwa [List.head?_reverse] at hc))]
  exact List.reverse_reverse cs

theorem replNB_id (cs : List Char) (h : ∀ c ∈ cs, c.toNat ≠ 160) : replNB cs = cs := by
  induction cs with
  | nil => rfl
  | cons c cs' ih =>
    simp only [replNB, List.map_cons]
    rw [if_neg (h c (List.mem_cons_self c cs'))]
    have := ih (fun x hx => h x (List.mem_cons_of_mem c hx))
    simp only [replNB] at this
    rw [this]

theorem clean_text_fixed (cs : List Char)
    (hcol : collapseWSAux false cs = cs)
    (hh : ∀ c, cs.head? = some c → isWSC c = false)
    (hl : ∀ c, cs.getLast? = some c → isWSC c = false)
    (h160 : ∀ c ∈ cs, c.toNat ≠ 160) :
    clean_text ⟨cs⟩ = ⟨cs⟩ := by
  unfold clean_text
  by_cases h0 : (String.mk cs) = ""
  · rw [if_pos h0, h0]
  · rw [if_neg h0]
    have hdata : (String.mk cs).data = cs := rfl
    rw [hdata, hcol, stripEnds_id cs hh hl, replNB_id cs h160, stripEnds_id cs hh hl]

theorem ne160_of_ws_false {c : Char} (h : isWSC c = false) : c.toNat ≠ 160 :=
  toNat_ne160_of_not_isWSC h

theorem digit2_ne_nil (n : Nat) : digit2 n ≠ [] := by
  simp [digit2]

theorem digit4_ne_nil (n : Nat) : digit4 n ≠ [] := by
  simp [digit4]

theorem getLast?_digit4 (n : Nat) : (digit4 n).getLast? = some (digitChar (n % 10)) := rfl

theorem getLast?_digit2 (n : Nat) : (digit2 n).getLast? = some (digitChar (n % 10)) := rfl

theorem digit2_head (n : Nat) (r : List Char) :
    ∀ c, ((digit2 n ++ r).head? = some c) → isWSC c = false := by
  intro c hc
  simp only [digit2, List.cons_append, List.head?_cons, Option.some.injEq] at hc
  subst hc
  exact isWSC_digitChar _

theorem digit4_head (n : Nat) (r : List Char) :
    ∀ c, ((digit4 n ++ r).head? = some c) → isWSC c = false := by
  intro c hc
  simp only [digit4, List.cons_append, List.head?_cons, Option.some.injEq] at hc
  subst hc
  exact isWSC_digitChar _

theorem collapse_cons_nws {c : Char} (h : isWSC c = false) (r : List Char) :
    collapseWSAux false (c :: r) = c :: collapseWSAux false r := by
  simp [collapseWSAux, h]

theorem mem_of_getLast?_eq {l : List Char} {c : Char} (h : l.getLast? = some c) : c ∈ l := by
  obtain ⟨hne, heq⟩ := List.mem_getLast?_eq_getLast (show c ∈ l.getLast? from h)
  rw [heq]
  exact List.getLast_mem hne

theorem getLast?_cons_ne_nil {x : Char} {b : List Char} (hb : b ≠ []) :
    (x :: b).getLast? = b.getLast? := by
  obtain ⟨y, b', rfl⟩ := List.exists_cons_of_ne_nil hb
  rw [List.getLast?_cons_cons]

theorem head_of_shape {B : List Char} (hBsh : ∃ p ps, B = p :: ps)
    (hB : ∀ c ∈ B, isWSC c = false) (r : List Char) :
    ∀ c, ((B ++ r).head? = some c) → isWSC c = false := by
  obtain ⟨p, ps, rfl⟩ := hBsh
  intro c hc
  simp only [List.cons_append, List.head?_cons, Option.some.injEq] at hc
  subst hc
  exact hB p (List.mem_cons_self _ _)

theorem head_of_shape0 {B : List Char} (hBsh : ∃ p ps, B = p :: ps)
    (hB : ∀ c ∈ B, isWSC c = false) :
    ∀ c, (B.head? = some c) → isWSC c = false := by
  obtain ⟨p, ps, rfl⟩ := hBsh
  intro c hc
  simp only [List.head?_cons, Option.some.injEq] at hc
  subst hc
  exact hB p (List.mem_cons_self _ _)

/-- Fixedness of `clean_text` on strings with no whitespace at all. -/
theorem clean_wsfree_all (cs : List Char) (h : ∀ c ∈ cs, isWSC c = false) :
    clean_text ⟨cs⟩ = ⟨cs⟩ := by
  apply clean_text_fixed cs (collapse_wsfree h)
  · intro c hc
    cases cs with
    | nil => simp at hc
    | cons x xs =>
      simp only [List.head?_cons, Option.some.injEq] at hc
      subst hc
      exact h x (List.mem_cons_self _ _)
  · intro c hc
    exact h c (mem_of_getLast?_eq hc)
  · intro c hc
    exact ne160_of_ws_false (h c hc)

/-- Fixedness of `clean_text` on `A ++ " " ++ B ++ ", " ++ C` with
whitespace-free nonempty chunks (the `%B %d, %Y` / `%b %d, %Y` shapes). -/
theorem clean_shape_comma (A B C : List Char)
    (hA : ∀ c ∈ A, isWSC c = false) (hAsh : ∃ p ps, A = p :: ps)
    (hB : ∀ c ∈ B, isWSC c = false) (hBsh : ∃ p ps, B = p :: ps)
    (hC : ∀ c ∈ C, isWSC c = false) (hCsh : ∃ p ps, C = p :: ps) :
    clean_text ⟨A ++ ' ' :: (B ++ ',' :: ' ' :: C)⟩ = ⟨A ++ ' ' :: (B ++ ',' :: ' ' :: C)⟩ := by
  have hCne : C ≠ [] := by
    obtain ⟨p, ps, rfl⟩ := hCsh
    exact List.cons_ne_nil _ _
  apply clean_text_fixed
  · rw [collapse_wsfree_app hA, collapse_space,
        collapse_true_head (head_of_shape hBsh hB (',' :: ' ' :: C)),
        collapse_wsfree_app hB, collapse_cons_nws (by decide), collapse_space,
        collapse_true_head (head_of_shape0 hCsh hC), collapse_wsfree hC]
  · exact head_of_shape hAsh hA _
  · intro c hc
    rw [List.getLast?_append_of_ne_nil _ (List.cons_ne_nil _ _),
        getLast?_cons_ne_nil (by
          obtain ⟨p, ps, rfl⟩ := hBsh
          exact List.cons_ne_nil _ _),
        List.getLast?_append_of_ne_nil _ (List.cons_ne_nil _ _),
        List.getLast?_cons_cons, getLast?_cons_ne_nil hCne] at hc
    exact hC c (mem_of_getLast?_eq hc)
  · intro c hc
    rcases List.mem_append.mp hc with h | h
    · exact ne160_of_ws_false (hA c h)
    · rcases List.mem_cons.mp h with h | h
      · subst h; decide
      · rcases List.mem_append.mp h with h | h
        · exact ne160_of_ws_false (hB c h)
        · rcases List.mem_cons.mp h with h | h
          · subst h; decide
          · rcases List.mem_cons.mp h with h | h
            · subst h; decide
            · exact ne160_of_ws_false (hC c h)

/-- Fixedness of `clean_text` on `A ++ " " ++ B ++ " " ++ C` with
whitespace-free nonempty chunks (the `%d %B %Y` / `%d %b %Y` shapes). -/
theorem clean_shape_spaces (A B C : List Char)
    (hA : ∀ c ∈ A, isWSC c = false) (hAsh : ∃ p ps, A = p :: ps)
    (hB : ∀ c ∈ B, isWSC c = false) (hBsh : ∃ p ps, B = p :: ps)
    (hC : ∀ c ∈ C, isWSC c = false) (hCsh : ∃ p ps, C = p :: ps) :
    clean_text ⟨A ++ ' ' :: (B ++ ' ' :: C)⟩ = ⟨A ++ ' ' :: (B ++ ' ' :: C)⟩ := by
  have hCne : C ≠ [] := by
    obtain ⟨p, ps, rfl⟩ := hCsh
    exact List.cons_ne_nil _ _
  apply clean_text_fixed
  · rw [collapse_wsfree_app hA, collapse_space,
        collapse_true_head (head_of_shape hBsh hB (' ' :: C)),
        collapse_wsfree_app hB, collapse_space,
        collapse_true_head (head_of_shape0 hCsh hC), collapse_wsfree hC]
  · exact head_of_shape hAsh hA _
  · intro c hc
    rw [List.getLast?_append_of_ne_nil _ (List.cons_ne_nil _ _),
        getLast?_cons_ne_nil (by
          obtain ⟨p, ps, rfl⟩ := hBsh
          exact List.cons_ne_nil _ _),
        List.getLast?_append_of_ne_nil _ (List.cons_ne_nil _ _),
        getLast?_cons_ne_nil hCne] at hc
    exact hC c (mem_of_getLast?_eq hc)
  · intro c hc
    rcases List.mem_append.mp hc with h | h
    · exact ne160_of_ws_false (hA c h)
    · rcases List.mem_cons.mp h with h | h
      · subst h; decide
      · rcases List.mem_append.mp h with h | h
        · exact ne160_of_ws_false (hB c h)
        · rcases List.mem_cons.mp h with h | h
          · subst h; decide
          · exact ne160_of_ws_false (hC c h)

theorem digit2_sh (n : Nat) : ∃ p ps, digit2 n = p :: ps := ⟨_, _, rfl⟩

theorem digit4_sh (n : Nat) : ∃ p ps, digit4 n = p :: ps := ⟨_, _, rfl⟩

theorem monthName_sh (m : Nat) : ∃ p ps, monthNameChars m = p :: ps := by
  obtain ⟨p, ps, hp, -, -⟩ := monthName_shape m
  exact ⟨p, ps, hp⟩

theorem monthAbbr_sh (m : Nat) : ∃ p ps, monthAbbrChars m = p :: ps := by
  obtain ⟨p, ps, hp, -, -⟩ := monthAbbr_shape m
  exact ⟨p, ps, hp⟩

theorem clean_fmtB (dt : Date) : clean_text ⟨fmtBChars dt⟩ = ⟨fmtBChars dt⟩ :=
  clean_shape_comma _ _ _ (monthName_wsfree dt.month) (monthName_sh dt.month)
    (digit2_wsfree dt.day) (digit2_sh dt.day) (digit4_wsfree dt.year) (digit4_sh dt.year)

theorem clean_fmtb (dt : Date) : clean_text ⟨fmtbChars dt⟩ = ⟨fmtbChars dt⟩ :=
  clean_shape_comma _ _ _ (monthAbbr_wsfree dt.month) (monthAbbr_sh dt.month)
    (digit2_wsfree dt.day) (digit2_sh dt.day) (digit4_wsfree dt.year) (digit4_sh dt.year)

theorem clean_fmtdB (dt : Date) : clean_text ⟨fmtdBChars dt⟩ = ⟨fmtdBChars dt⟩ :=
  clean_shape_spaces _ _ _ (digit2_wsfree dt.day) (digit2_sh dt.day)
    (monthName_wsfree dt.month) (monthName_sh dt.month)
    (digit4_wsfree dt.year) (digit4_sh dt.year)

theorem clean_fmtdb (dt : Date) : clean_text ⟨fmtdbChars dt⟩ = ⟨fmtdbChars dt⟩ :=
  clean_shape_spaces _ _ _ (digit2_wsfree dt.day) (digit2_sh dt.day)
    (monthAbbr_wsfree dt.month) (monthAbbr_sh dt.month)
    (digit4_wsfree dt.year) (digit4_sh dt.year)

theorem clean_fmtISO (dt : Date) : clean_text ⟨fmtISOChars dt⟩ = ⟨fmtISOChars dt⟩ := by
  apply clean_wsfree_all
  intro c hc
  unfold fmtISOChars at hc
  rcases List.mem_append.mp hc with h | h
  · exact digit4_wsfree _ c h
  · rcases List.mem_cons.mp h with h | h
    · subst h; decide
    · rcases List.mem_append.mp h with h | h
      · exact digit2_wsfree _ c h
      · rcases List.mem_cons.mp h with h | h
        · subst h; decide
        · exact digit2_wsfree _ c h

theorem clean_fmtMDY (dt : Date) : clean_text ⟨fmtMDYChars dt⟩ = ⟨fmtMDYChars dt⟩ := by
  apply clean_wsfree_all
  intro c hc
  unfold fmtMDYChars at hc
  rcases List.mem_append.mp hc with h | h
  · exact digit2_wsfree _ c h
  · rcases List.mem_cons.mp h with h | h
    · subst h; decide
    · rcases List.mem_append.mp h with h | h
      · exact digit2_wsfree _ c h
      · rcases List.mem_cons.mp h with h | h
        · subst h; decide
        · exact digit4_wsfree _ c h

/-! ### C6: layout-level parse lemmas -/

theorem daysInMonth_le31 (y m : Nat) : daysInMonth y m ≤ 31 := by
  unfold daysInMonth
  split
  · split <;> omega
  · split <;> omega

theorem mkValidDate_valid {y m d : Nat} (hv : ValidDate ⟨y, m, d⟩) :
    mkValidDate y m d = some ⟨y, m, d⟩ := by
  obtain ⟨h1, h2, h3, h4, h5, h6⟩ := hv
  have h1' : 1000 ≤ y := h1
  have h2' : y ≤ 9999 := h2
  have h6' : d ≤ daysInMonth y m := h6
  unfold mkValidDate
  rw [if_pos]
  exact ⟨by omega, h2', h3, h4, h5, h6'⟩

theorem skipWS1_none (cs : List Char) (h : ∀ c, cs.head? = some c → isWSC c = false) :
    skipWS1 cs = none := by
  cases cs with
  | nil => rfl
  | cons c cs' => simp [skipWS1, h c rfl]

theorem parseY4_digit4_nil {y : Nat} (h : y ≤ 9999) : parseY4 (digit4 y) = some (y, []) := by
  have := parseY4_digit4 h []
  simpa using this

theorem parseDayTok_digit2_nil {d : Nat} (h1 : 1 ≤ d) (h2 : d ≤ 31) :
    parseDayTok (digit2 d) = some (d, []) := by
  have := parseDayTok_digit2 h1 h2 []
  simpa using this

theorem parseLayoutB_fmtB {y m d : Nat} (hv : ValidDate ⟨y, m, d⟩) :
    parseLayoutB (fmtBChars ⟨y, m, d⟩) = some ⟨y, m, d⟩ := by
  obtain ⟨hy1, hy2, hm1, hm2, hd1, hd2⟩ := hv
  have e1 := parseB_name hm1 hm2 (' ' :: (digit2 d ++ ',' :: ' ' :: digit4 y))
  have e2 := skipWS1_space (digit2 d ++ ',' :: ' ' :: digit4 y) (digit2_head d _)
  have e3 := parseDayTok_digit2 hd1 (le_trans hd2 (daysInMonth_le31 y m))
    (',' :: ' ' :: digit4 y)
  have e4 : litTok ',' (',' :: ' ' :: digit4 y) = some (' ' :: digit4 y) := rfl
  have e5 := skipWS1_space (digit4 y) (head_of_shape0 (digit4_sh y) (digit4_wsfree y))
  have e6 := parseY4_digit4_nil hy2
  simp only [parseLayoutB, fmtBChars, Option.bind_eq_bind, e1, Option.some_bind,
    e2, e3, e4, e5, e6, if_pos]
  exact mkValidDate_valid ⟨hy1, hy2, hm1, hm2, hd1, hd2⟩

theorem parseLayoutb_fmtb {y m d : Nat} (hv : ValidDate ⟨y, m, d⟩) :
    parseLayoutb (fmtbChars ⟨y, m, d⟩) = some ⟨y, m, d⟩ := by
  obtain ⟨hy1, hy2, hm1, hm2, hd1, hd2⟩ := hv
  have e1 := parseb_name hm1 hm2 (' ' :: (digit2 d ++ ',' :: ' ' :: digit4 y))
  have e2 := skipWS1_space (digit2 d ++ ',' :: ' ' :: digit4 y) (digit2_head d _)
  have e3 := parseDayTok_digit2 hd1 (le_trans hd2 (daysInMonth_le31 y m))
    (',' :: ' ' :: digit4 y)
  have e4 : litTok ',' (',' :: ' ' :: digit4 y) = some (' ' :: digit4 y) := rfl
  have e5 := skipWS1_space (digit4 y) (head_of_shape0 (digit4_sh y) (digit4_wsfree y))
  have e6 := parseY4_digit4_nil hy2
  simp only [parseLayoutb, fmtbChars, Option.bind_eq_bind, e1, Option.some_bind,
    e2, e3, e4, e5, e6, if_pos]
  exact mkValidDate_valid ⟨hy1, hy2, hm1, hm2, hd1, hd2⟩

theorem parseLayoutB_fmtb5 {y d : Nat} (hv : ValidDate ⟨y, 5, d⟩) :
    parseLayoutB (fmtbChars ⟨y, 5, d⟩) = some ⟨y, 5, d⟩ := by
  obtain ⟨hy1, hy2, hm1, hm2, hd1, hd2⟩ := hv
  have e1 := parseB_abbr5 (digit2 d ++ ',' :: ' ' :: digit4 y)
  have e2 := skipWS1_space (digit2 d ++ ',' :: ' ' :: digit4 y) (digit2_head d _)
  have e3 := parseDayTok_digit2 hd1 (le_trans hd2 (daysInMonth_le31 y 5))
    (',' :: ' ' :: digit4 y)
  have e4 : litTok ',' (',' :: ' ' :: digit4 y) = some (' ' :: digit4 y) := rfl
  have e5 := skipWS1_space (digit4 y) (head_of_shape0 (digit4_sh y) (digit4_wsfree y))
  have e6 := parseY4_digit4_nil hy2
  simp only [parseLayoutB, fmtbChars, Option.bind_eq_bind, e1, Option.some_bind,
    e2, e3, e4, e5, e6, if_pos]
  exact mkValidDate_valid ⟨hy1, hy2, hm1, hm2, hd1, hd2⟩

theorem parseLayoutB_fmtb_ne5 {y m d : Nat} (h1 : 1 ≤ m) (h2 : m ≤ 12) (h5 : m ≠ 5) :
    parseLayoutB (fmtbChars ⟨y, m, d⟩) = none := by
  have e1 := parseB_abbr_ne5 h1 h2 h5 (digit2 d ++ ',' :: ' ' :: digit4 y)
  simp only [parseLayoutB, fmtbChars, Option.bind_eq_bind, e1, Option.none_bind]

theorem parseLayoutB_digit {c : Char} (hc : isDigitC c = true) (r : List Char) :
    parseLayoutB (c :: r) = none := by
  simp only [parseLayoutB, Option.bind_eq_bind,
    parseMonthTbl_digit_head monthTableB monthTableB_heads hc, Option.none_bind]

theorem parseLayoutb_digit {c : Char} (hc : isDigitC c = true) (r : List Char) :
    parseLayoutb (c :: r) = none := by
  simp only [parseLayoutb, Option.bind_eq_bind,
    parseMonthTbl_digit_head monthTableb monthTableb_heads hc, Option.none_bind]

theorem parseLayoutdB_fmtdB {y m d : Nat} (hv : ValidDate ⟨y, m, d⟩) :
    parseLayoutdB (fmtdBChars ⟨y, m, d⟩) = some ⟨y, m, d⟩ := by
  obtain ⟨hy1, hy2, hm1, hm2, hd1, hd2⟩ := hv
  have e1 := parseDayTok_digit2 hd1 (le_trans hd2 (daysInMonth_le31 y m))
    (' ' :: (monthNameChars m ++ ' ' :: digit4 y))
  have e2 := skipWS1_space (monthNameChars m ++ ' ' :: digit4 y)
    (head_of_shape (monthName_sh m) (monthName_wsfree m) _)
  have e3 := parseB_name hm1 hm2 (' ' :: digit4 y)
  have e4 := skipWS1_space (digit4 y) (head_of_shape0 (digit4_sh y) (digit4_wsfree y))
  have e5 := parseY4_digit4_nil hy2
  simp only [parseLayoutdB, fmtdBChars, Option.bind_eq_bind, e1, Option.some_bind,
    e2, e3, e4, e5, if_pos]
  exact mkValidDate_valid ⟨hy1, hy2, hm1, hm2, hd1, hd2⟩

theorem parseLayoutdb_fmtdb {y m d : Nat} (hv : ValidDate ⟨y, m, d⟩) :
    parseLayoutdb (fmtdbChars ⟨y, m, d⟩) = some ⟨y, m, d⟩ := by
  obtain ⟨hy1, hy2, hm1, hm2, hd1, hd2⟩ := hv
  have e1 := parseDayTok_digit2 hd1 (le_trans hd2 (daysInMonth_le31 y m))
    (' ' :: (monthAbbrChars m ++ ' ' :: digit4 y))
  have e2 := skipWS1_space (monthAbbrChars m ++ ' ' :: digit4 y)
    (head_of_shape (monthAbbr_sh m) (monthAbbr_wsfree m) _)
  have e3 := parseb_name hm1 hm2 (' ' :: digit4 y)
  have e4 := skipWS1_space (digit4 y) (head_of_shape0 (digit4_sh y) (digit4_wsfree y))
  have e5 := parseY4_digit4_nil hy2
  simp only [parseLayoutdb, fmtdbChars, Option.bind_eq_bind, e1, Option.some_bind,
    e2, e3, e4, e5, if_pos]
  exact mkValidDate_valid ⟨hy1, hy2, hm1, hm2, hd1, hd2⟩

theorem parseLayoutdB_fmtdb5 {y d : Nat} (hv : ValidDate ⟨y, 5, d⟩) :
    parseLayoutdB (fmtdbChars ⟨y, 5, d⟩) = some ⟨y, 5, d⟩ := by
  obtain ⟨hy1, hy2, hm1, hm2, hd1, hd2⟩ := hv
  have e1 := parseDayTok_digit2 hd1 (le_trans hd2 (daysInMonth_le31 y 5))
    (' ' :: (monthAbbrChars 5 ++ ' ' :: digit4 y))
  have e2 := skipWS1_space (monthAbbrChars 5 ++ ' ' :: digit4 y)
    (head_of_shape (monthAbbr_sh 5) (monthAbbr_wsfree 5) _)
  have e3 := parseB_abbr5 (digit4 y)
  have e4 := skipWS1_space (digit4 y) (head_of_shape0 (digit4_sh y) (digit4_wsfree y))
  have e5 := parseY4_digit4_nil hy2
  simp only [parseLayoutdB, fmtdbChars, Option.bind_eq_bind, e1, Option.some_bind,
    e2, e3, e4, e5, if_pos]
  exact mkValidDate_valid ⟨hy1, hy2, hm1, hm2, hd1, hd2⟩

theorem parseLayoutdB_fmtdb_ne5 {y m d : Nat} (h1 : 1 ≤ m) (h2 : m ≤ 12) (h5 : m ≠ 5)
    (hd1 : 1 ≤ d) (hd31 : d ≤ 31) :
    parseLayoutdB (fmtdbChars ⟨y, m, d⟩) = none := by
  have e1 := parseDayTok_digit2 hd1 hd31 (' ' :: (monthAbbrChars m ++ ' ' :: digit4 y))
  have e2 := skipWS1_space (monthAbbrChars m ++ ' ' :: digit4 y)
    (head_of_shape (monthAbbr_sh m) (monthAbbr_wsfree m) _)
  have e3 := parseB_abbr_ne5 h1 h2 h5 (digit4 y)
  simp only [parseLayoutdB, fmtdbChars, Option.bind_eq_bind, e1, Option.some_bind,
    e2, e3, Option.none_bind]

theorem parseLayoutISO_fmtISO {y m d : Nat} (hv : ValidDate ⟨y, m, d⟩) :
    parseLayoutISO (fmtISOChars ⟨y, m, d⟩) = some ⟨y, m, d⟩ := by
  obtain ⟨hy1, hy2, hm1, hm2, hd1, hd2⟩ := hv
  have e1 := parseY4_digit4 hy2 ('-' :: (digit2 m ++ '-' :: digit2 d))
  have e2 : litTok '-' ('-' :: (digit2 m ++ '-' :: digit2 d)) =
      some (digit2 m ++ '-' :: digit2 d) := rfl
  have e3 := parseMonthNumTok_digit2 hm1 hm2 ('-' :: digit2 d)
  have e4 : litTok '-' ('-' :: digit2 d) = some (digit2 d) := rfl
  have e5 := parseDayTok_digit2_nil hd1 (le_trans hd2 (daysInMonth_le31 y m))
  simp only [parseLayoutISO, fmtISOChars, Option.bind_eq_bind, e1, Option.some_bind,
    e2, e3, e4, e5, if_pos]
  exact mkValidDate_valid ⟨hy1, hy2, hm1, hm2, hd1, hd2⟩

theorem parseLayoutMDY_fmtMDY {y m d : Nat} (hv : ValidDate ⟨y, m, d⟩) :
    parseLayoutMDY (fmtMDYChars ⟨y, m, d⟩) = some ⟨y, m, d⟩ := by
  obtain ⟨hy1, hy2, hm1, hm2, hd1, hd2⟩ := hv
  have e1 := parseMonthNumTok_digit2 hm1 hm2 ('/' :: (digit2 d ++ '/' :: digit4 y))
  have e2 : litTok '/' ('/' :: (digit2 d ++ '/' :: digit4 y)) =
      some (digit2 d ++ '/' :: digit4 y) := rfl
  have e3 := parseDayTok_digit2 hd1 (le_trans hd2 (daysInMonth_le31 y m)) ('/' :: digit4 y)
  have e4 : litTok '/' ('/' :: digit4 y) = some (digit4 y) := rfl
  have e5 := parseY4_digit4_nil hy2
  simp only [parseLayoutMDY, fmtMDYChars, Option.bind_eq_bind, e1, Option.some_bind,
    e2, e3, e4, e5, if_pos]
  exact mkValidDate_valid ⟨hy1, hy2, hm1, hm2, hd1, hd2⟩

theorem parseDayTok_cons_cases (a b : Char) (rest : List Char) :
    parseDayTok (a :: b :: rest) = none ∨
    (∃ n, parseDayTok (a :: b :: rest) = some (n, rest)) ∨
    (∃ n, parseDayTok (a :: b :: rest) = some (n, b :: rest)) := by
  simp only [parseDayTok]
  split_ifs
  · right; left; exact ⟨_, rfl⟩
  · right; left; exact ⟨_, rfl⟩
  · right; left; exact ⟨_, rfl⟩
  · right; right; exact ⟨_, rfl⟩
  · left; rfl

theorem parseLayoutdB_fail (cs : List Char)
    (h : ∀ n cs2, parseDayTok cs = some (n, cs2) → skipWS1 cs2 = none) :
    parseLayoutdB cs = none := by
  rcases hd : parseDayTok cs with _ | ⟨n, cs2⟩
  · simp [parseLayoutdB, hd]
  · simp [parseLayoutdB, hd, h n cs2 hd]

theorem parseLayoutdb_fail (cs : List Char)
    (h : ∀ n cs2, parseDayTok cs = some (n, cs2) → skipWS1 cs2 = none) :
    parseLayoutdb cs = none := by
  rcases hd : parseDayTok cs with _ | ⟨n, cs2⟩
  · simp [parseLayoutdb, hd]
  · simp [parseLayoutdb, hd, h n cs2 hd]

theorem parse3_fail_head (a b x : Char) (hb : isWSC b = false) (hx : isWSC x = false)
    (r : List Char) :
    parseLayoutdB (a :: b :: x :: r) = none ∧ parseLayoutdb (a :: b :: x :: r) = none := by
  have key : ∀ n cs2, parseDayTok (a :: b :: x :: r) = some (n, cs2) → skipWS1 cs2 = none := by
    intro n cs2 hd
    rcases parseDayTok_cons_cases a b (x :: r) with h | ⟨n', h⟩ | ⟨n', h⟩
    · rw [h] at hd
      exact absurd hd (by simp)
    · rw [h] at hd
      simp only [Option.some.injEq, Prod.mk.injEq] at hd
      rw [← hd.2]
      exact skipWS1_none _ (fun t ht => by
        simp only [List.head?_cons, Option.some.injEq] at ht
        subst ht
        exact hx)
    · rw [h] at hd
      simp only [Option.some.injEq, Prod.mk.injEq] at hd
      rw [← hd.2]
      exact skipWS1_none _ (fun t ht => by
        simp only [List.head?_cons, Option.some.injEq] at ht
        subst ht
        exact hb)
  exact ⟨parseLayoutdB_fail _ key, parseLayoutdb_fail _ key⟩

/-! ### C6: extract_date round trips -/

theorem fmtB_ne_nil (dt : Date) : fmtBChars dt ≠ [] := by
  obtain ⟨p, ps, hp⟩ := monthName_sh dt.month
  simp [fmtBChars, hp]

theorem fmtb_ne_nil (dt : Date) : fmtbChars dt ≠ [] := by
  obtain ⟨p, ps, hp⟩ := monthAbbr_sh dt.month
  simp [fmtbChars, hp]

theorem fmtdB_ne_nil (dt : Date) : fmtdBChars dt ≠ [] := by
  simp [fmtdBChars, digit2]

theorem fmtdb_ne_nil (dt : Date) : fmtdbChars dt ≠ [] := by
  simp [fmtdbChars, digit2]

theorem fmtISO_ne_nil (dt : Date) : fmtISOChars dt ≠ [] := by
  simp [fmtISOChars, digit4]

theorem fmtMDY_ne_nil (dt : Date) : fmtMDYChars dt ≠ [] := by
  simp [fmtMDYChars, digit2]

theorem extract_date_fmtB (dt : Date) (hv : ValidDate dt) :
    extract_date ⟨fmtBChars dt⟩ = some dt := by
  obtain ⟨y, m, d⟩ := dt
  simp only [extract_date]
  rw [if_neg (fun hcon => fmtB_ne_nil ⟨y, m, d⟩ (mk_eq_empty.mp hcon))]
  rw [clean_fmtB ⟨y, m, d⟩]
  have hdata : (String.mk (fmtBChars ⟨y, m, d⟩)).data = fmtBChars ⟨y, m, d⟩ := rfl
  rw [hdata, parseLayoutB_fmtB hv]
  rfl

theorem extract_date_fmtb (dt : Date) (hv : ValidDate dt) :
    extract_date ⟨fmtbChars dt⟩ = some dt := by
  obtain ⟨y, m, d⟩ := dt
  simp only [extract_date]
  rw [if_neg (fun hcon => fmtb_ne_nil ⟨y, m, d⟩ (mk_eq_empty.mp hcon))]
  rw [clean_fmtb ⟨y, m, d⟩]
  have hdata : (String.mk (fmtbChars ⟨y, m, d⟩)).data = fmtbChars ⟨y, m, d⟩ := rfl
  rw [hdata]
  by_cases h5 : m = 5
  · subst h5
    rw [parseLayoutB_fmtb5 hv]
    rfl
  · obtain ⟨hy1, hy2, hm1, hm2, hd1, hd2⟩ := hv
    rw [parseLayoutB_fmtb_ne5 hm1 hm2 h5, parseLayoutb_fmtb ⟨hy1, hy2, hm1, hm2, hd1, hd2⟩]
    rfl

theorem extract_date_fmtdB (dt : Date) (hv : ValidDate dt) :
    extract_date ⟨fmtdBChars dt⟩ = some dt := by
  obtain ⟨y, m, d⟩ := dt
  simp only [extract_date]
  rw [if_neg (fun hcon => fmtdB_ne_nil ⟨y, m, d⟩ (mk_eq_empty.mp hcon))]
  rw [clean_fmtdB ⟨y, m, d⟩]
  have hdata : (String.mk (fmtdBChars ⟨y, m, d⟩)).data = fmtdBChars ⟨y, m, d⟩ := rfl
  rw [hdata]
  have hsh : fmtdBChars ⟨y, m, d⟩ = digitChar (d / 10) ::
      (digitChar (d % 10) :: (' ' :: (monthNameChars m ++ ' ' :: digit4 y))) := rfl
  have hL1 : parseLayoutB (fmtdBChars ⟨y, m, d⟩) = none := by
    rw [hsh]
    exact parseLayoutB_digit (isDigitC_digitChar _) _
  have hL2 : parseLayoutb (fmtdBChars ⟨y, m, d⟩) = none := by
    rw [hsh]
    exact parseLayoutb_digit (isDigitC_digitChar _) _
  rw [hL1, hL2, parseLayoutdB_fmtdB hv]
  rfl

theorem extract_date_fmtdb (dt : Date) (hv : ValidDate dt) :
    extract_date ⟨fmtdbChars dt⟩ = some dt := by
  obtain ⟨y, m, d⟩ := dt
  simp only [extract_date]
  rw [if_neg (fun hcon => fmtdb_ne_nil ⟨y, m, d⟩ (mk_eq_empty.mp hcon))]
  rw [clean_fmtdb ⟨y, m, d⟩]
  have hdata : (String.mk (fmtdbChars ⟨y, m, d⟩)).data = fmtdbChars ⟨y, m, d⟩ := rfl
  rw [hdata]
  have hsh : fmtdbChars ⟨y, m, d⟩ = digitChar (d / 10) ::
      (digitChar (d % 10) :: (' ' :: (monthAbbrChars m ++ ' ' :: digit4 y))) := rfl
  have hL1 : parseLayoutB (fmtdbChars ⟨y, m, d⟩) = none := by
    rw [hsh]
    exact parseLayoutB_digit (isDigitC_digitChar _) _
  have hL2 : parseLayoutb (fmtdbChars ⟨y, m, d⟩) = none := by
    rw [hsh]
    exact parseLayoutb_digit (isDigitC_digitChar _) _
  rw [hL1, hL2]
  by_cases h5 : m = 5
  · subst h5
    rw [parseLayoutdB_fmtdb5 hv]
    rfl
  · obtain ⟨hy1, hy2, hm1, hm2, hd1, hd2⟩ := hv
    rw [parseLayoutdB_fmtdb_ne5 hm1 hm2 h5 hd1 (le_trans hd2 (daysInMonth_le31 y m)),
        parseLayoutdb_fmtdb ⟨hy1, hy2, hm1, hm2, hd1, hd2⟩]
    rfl

theorem extract_date_fmtISO (dt : Date) (hv : ValidDate dt) :
    extract_date ⟨fmtISOChars dt⟩ = some dt := by
  obtain ⟨y, m, d⟩ := dt
  simp only [extract_date]
  rw [if_neg (fun hcon => fmtISO_ne_nil ⟨y, m, d⟩ (mk_eq_empty.mp hcon))]
  rw [clean_fmtISO ⟨y, m, d⟩]
  have hdata : (String.mk (fmtISOChars ⟨y, m, d⟩)).data = fmtISOChars ⟨y, m, d⟩ := rfl
  rw [hdata]
  have hsh : fmtISOChars ⟨y, m, d⟩ = digitChar (y / 1000) :: digitChar (y / 100 % 10) ::
      digitChar (y / 10 % 10) :: (digitChar (y % 10) ::
        ('-' :: (digit2 m ++ '-' :: digit2 d))) := rfl
  have hL1 : parseLayoutB (fmtISOChars ⟨y, m, d⟩) = none := by
    rw [hsh]
    exact parseLayoutB_digit (isDigitC_digitChar _) _
  have hL2 : parseLayoutb (fmtISOChars ⟨y, m, d⟩) = none := by
    rw [hsh]
    exact parseLayoutb_digit (isDigitC_digitChar _) _
  obtain ⟨hL3, hL4⟩ := parse3_fail_head (digitChar (y / 1000)) (digitChar (y / 100 % 10))
    (digitChar (y / 10 % 10)) (isWSC_digitChar _) (isWSC_digitChar _)
    (digitChar (y % 10) :: ('-' :: (digit2 m ++ '-' :: digit2 d)))
  rw [hL1, hL2, hsh, hL3, hL4, ← hsh, parseLayoutISO_fmtISO hv]
  rfl

theorem extract_date_fmtMDY (dt : Date) (hv : ValidDate dt) :
    extract_date ⟨fmtMDYChars dt⟩ = some dt := by
  obtain ⟨y, m, d⟩ := dt
  simp only [extract_date]
  rw [if_neg (fun hcon => fmtMDY_ne_nil ⟨y, m, d⟩ (mk_eq_empty.mp hcon))]
  rw [clean_fmtMDY ⟨y, m, d⟩]
  have hdata : (String.mk (fmtMDYChars ⟨y, m, d⟩)).data = fmtMDYChars ⟨y, m, d⟩ := rfl
  rw [hdata]
  have hsh : fmtMDYChars ⟨y, m, d⟩ = digitChar (m / 10) :: digitChar (m % 10) ::
      '/' :: (digitChar (d / 10) :: (digitChar (d % 10) :: ('/' :: digit4 y))) := rfl
  have hL1 : parseLayoutB (fmtMDYChars ⟨y, m, d⟩) = none := by
    rw [hsh]
    exact parseLayoutB_digit (isDigitC_digitChar _) _
  have hL2 : parseLayoutb (fmtMDYChars ⟨y, m, d⟩) = none := by
    rw [hsh]
    exact parseLayoutb_digit (isDigitC_digitChar _) _
  obtain ⟨hL3, hL4⟩ := parse3_fail_head (digitChar (m / 10)) (digitChar (m % 10)) '/'
    (isWSC_digitChar _) (by decide)
    (digitChar (d / 10) :: (digitChar (d % 10) :: ('/' :: digit4 y)))
  have hL5 : parseLayoutISO (fmtMDYChars ⟨y, m, d⟩) = none := by
    rw [hsh]
    have hy4 : parseY4 (digitChar (m / 10) :: digitChar (m % 10) ::
        '/' :: (digitChar (d / 10) :: (digitChar (d % 10) :: ('/' :: digit4 y)))) = none := by
      simp [parseY4, show isDigitC '/' = false from rfl]
    simp only [parseLayoutISO, Option.bind_eq_bind, hy4, Option.none_bind]
  rw [hL1, hL2, hsh, hL3, hL4, ← hsh, hL5, parseLayoutMDY_fmtMDY hv]
  rfl

/-- C6: for each of the six supported date layouts and every valid calendar
date (with a four-digit year, the form `%Y` emits and parses), formatting the
date in that layout and passing the result to `extract_date` returns the
original date; and any string on which none of the six layout parsers
succeeds yields `none`. -/
theorem c6_date_roundtrip (dt : Date) (hv : ValidDate dt) :
    (extract_date ⟨fmtBChars dt⟩ = some dt ∧
     extract_date ⟨fmtbChars dt⟩ = some dt ∧
     extract_date ⟨fmtdBChars dt⟩ = some dt ∧
     extract_date ⟨fmtdbChars dt⟩ = some dt ∧
     extract_date ⟨fmtISOChars dt⟩ = some dt ∧
     extract_date ⟨fmtMDYChars dt⟩ = some dt) ∧
    (∀ s : String,
      parseLayoutB (clean_text s).data = none →
      parseLayoutb (clean_text s).data = none →
      parseLayoutdB (clean_text s).data = none →
      parseLayoutdb (clean_text s).data = none →
      parseLayoutISO (clean_text s).data = none →
      parseLayoutMDY (clean_text s).data = none →
      extract_date s = none) := by
  constructor
  · exact ⟨extract_date_fmtB dt hv, extract_date_fmtb dt hv, extract_date_fmtdB dt hv,
      extract_date_fmtdb dt hv, extract_date_fmtISO dt hv, extract_date_fmtMDY dt hv⟩
  · intro s h1 h2 h3 h4 h5 h6
    simp only [extract_date]
    by_cases h0 : s = ""
    · rw [if_pos h0]
    · rw [if_neg h0, h1, h2, h3, h4, h5, h6]
      rfl

/-- Witness for C6 at the date 2023-01-15. -/
theorem c6_date_witness :
    extract_date ⟨fmtBChars ⟨2023, 1, 15⟩⟩ = some ⟨2023, 1, 15⟩ ∧
    extract_date ⟨fmtMDYChars ⟨2023, 1, 15⟩⟩ = some ⟨2023, 1, 15⟩ :=
  ⟨(c6_date_roundtrip ⟨2023, 1, 15⟩ (by decide)).1.1,
   (c6_date_roundtrip ⟨2023, 1, 15⟩ (by decide)).1.2.2.2.2.2⟩

/-! ### C8: parser totality and sentinel behaviour -/

theorem head?_shape {l : List Char} {c : Char} (h : l.head? = some c) : ∃ l2, l = c :: l2 := by
  cases l with
  | nil => simp at h
  | cons x xs =>
    simp only [List.head?_cons, Option.some.injEq] at h
    subst h
    exact ⟨xs, rfl⟩

theorem matchAsinAt_decomp (cs t : List Char) (h : matchAsinAt cs = some t) :
    ∃ v, cs = '/' :: (t ++ v) ∧ t.length = 10 ∧ (∀ x ∈ t, isAsinChar x = true) ∧
      (v = [] ∨ ∃ c2 v2, v = c2 :: v2 ∧ (c2 = '/' ∨ c2 = '?')) := by
  cases cs with
  | nil => simp [matchAsinAt] at h
  | cons c rest =>
    simp only [matchAsinAt] at h
    split at h
    · rename_i hc
      subst hc
      split at h
      · rename_i hcond
        simp only [Option.some.injEq] at h
        subst h
        simp only [Bool.and_eq_true, Bool.or_eq_true, decide_eq_true_eq] at hcond
        obtain ⟨⟨hlen, hall⟩, hafter⟩ := hcond
        refine ⟨rest.drop 10, ?_, hlen, ?_, ?_⟩
        · rw [List.take_append_drop]
        · intro x hx
          exact List.all_eq_true.mp hall x hx
        · rcases hafter with (h1 | h1) | h1
          · left
            exact List.isEmpty_iff.mp h1
          · obtain ⟨v2, hD⟩ := head?_shape h1
            exact Or.inr ⟨'/', v2, hD, Or.inl rfl⟩
          · obtain ⟨v2, hD⟩ := head?_shape h1
            exact Or.inr ⟨'?', v2, hD, Or.inr rfl⟩
      · exact absurd h (by simp)
    · exact absurd h (by simp)

theorem findAsin_decomp (cs t : List Char) (h : findAsin cs = some t) : hasAsinSub cs := by
  induction cs with
  | nil => simp [findAsin] at h
  | cons c0 cs' ih =>
    simp only [findAsin] at h
    rcases hm : matchAsinAt (c0 :: cs') with _ | t2
    · rw [hm] at h
      obtain ⟨u, t3, v, heq, rest⟩ := ih h
      exact ⟨c0 :: u, t3, v, by rw [List.cons_append, ← heq], rest⟩
    · obtain ⟨v, heq, hlen, hall, hv⟩ := matchAsinAt_decomp (c0 :: cs') t2 hm
      exact ⟨[], t2, v, by rw [List.nil_append, heq], hlen, hall, hv⟩

/-- C8: every field parser is a total function of its (string) input — the
embedding itself is a total Lean function, and determinism is definitional —
and on empty or unparseable input each returns its documented sentinel:
`clean_text` returns `""`, `extract_price` and `extract_asin_from_url` and
`extract_date` return `none`, `extract_order_id` falls back to the cleaned
raw text (`""` when empty), and `extract_quantity` defaults to 1. -/
theorem c8_parsers_total_sentinel :
    clean_text "" = "" ∧ extract_price "" = none ∧ extract_order_id "" = "" ∧
    extract_date "" = none ∧ extract_quantity "" = 1 ∧ extract_asin_from_url "" = none ∧
    (∀ s : String, ¬ hasDDD (stripCommas s.data) → extract_price s = none) ∧
    (∀ s : String, ¬ hasIdSub s.data → extract_order_id s = clean_text s) ∧
    (∀ s : String, (∀ c ∈ s.data, isDigitC c = false) → extract_quantity s = 1) ∧
    (∀ s : String, ¬ hasAsinSub s.data → extract_asin_from_url s = none) ∧
    (∀ s : String,
      parseLayoutB (clean_text s).data = none →
      parseLayoutb (clean_text s).data = none →
      parseLayoutdB (clean_text s).data = none →
      parseLayoutdb (clean_text s).data = none →
      parseLayoutISO (clean_text s).data = none →
      parseLayoutMDY (clean_text s).data = none →
      extract_date s = none) := by
  refine ⟨rfl, rfl, rfl, rfl, rfl, rfl, ?_, ?_, ?_, ?_, ?_⟩
  · intro s hs
    unfold extract_price
    by_cases h0 : s = ""
    · rw [if_pos h0]
    · rw [if_neg h0]
      rcases hf : findPrice (stripCommas s.data) with _ | ⟨w, f⟩
      · rfl
      · exfalso
        obtain ⟨u, v, heq, hw, hfne, hwc, hfd⟩ := findPrice_decomp _ w f hf
        obtain ⟨w', dl, hw'⟩ := (List.eq_nil_or_concat w).resolve_left hw
        obtain ⟨d2, f', hf'⟩ := List.exists_cons_of_ne_nil hfne
        apply hs
        refine ⟨u ++ w', dl, d2, f' ++ v, ?_, ?_, ?_⟩
        · rw [heq, hw', hf']
          simp [List.append_assoc]
        · have hdl : dl ∈ stripCommas s.data := by
            rw [heq, hw']
            simp
          exact digit_of_priceClass_ne_comma
            (hwc dl (by rw [hw']; simp)) (mem_stripCommas hdl)
        · exact hfd d2 (by rw [hf']; simp)
  · intro s hs
    by_cases h0 : s = ""
    · subst h0
      rfl
    · unfold extract_order_id
      rw [if_neg h0]
      rcases hf : findId s.data with _ | m
      · rfl
      · exact absurd (findId_decomp _ _ hf) hs
  · intro s hs
    unfold extract_quantity
    by_cases h0 : s = ""
    · rw [if_pos h0]
    · rw [if_neg h0, firstNumRun_none s.data hs]
  · intro s hs
    unfold extract_asin_from_url
    by_cases h0 : s = ""
    · rw [if_pos h0]
    · rw [if_neg h0]
      rcases hf : findAsin s.data with _ | t
      · rfl
      · exact absurd (findAsin_decomp _ _ hf) hs
  · intro s h1 h2 h3 h4 h5 h6
    simp only [extract_date]
    by_cases h0 : s = ""
    · rw [if_pos h0]
    · rw [if_neg h0, h1, h2, h3, h4, h5, h6]
      rfl

/-! ### C9: Order.to_dict flattening -/

theorem itemCols_mem (its : List OrderItem) :
    ∀ (k i : Nat) (h : i < its.length),
      ("item_" ++ toString (k + i) ++ "_name",
        CellVal.vStr (its.get ⟨i, h⟩).name) ∈ itemCols k its ∧
      ("item_" ++ toString (k + i) ++ "_price",
        optNum (its.get ⟨i, h⟩).price) ∈ itemCols k its ∧
      ("item_" ++ toString (k + i) ++ "_quantity",
        CellVal.vInt (its.get ⟨i, h⟩).quantity) ∈ itemCols k its ∧
      ("item_" ++ toString (k + i) ++ "_asin",
        optStr (its.get ⟨i, h⟩).asin) ∈ itemCols k its := by
  induction its with
  | nil =>
    intro k i h
    simp at h
  | cons it rest ih =>
    intro k i h
    cases i with
    | zero =>
      simp only [Nat.add_zero, List.get]
      exact ⟨by simp [itemCols], by simp [itemCols], by simp [itemCols], by simp [itemCols]⟩
    | succ i2 =>
      have h2 : i2 < rest.length := by simpa using h
      have harith : k + (i2 + 1) = (k + 1) + i2 := by omega
      have hget : (it :: rest).get ⟨i2 + 1, h⟩ = rest.get ⟨i2, h2⟩ := rfl
      rw [harith, hget]
      have mem4 : ∀ {x : String × CellVal}, x ∈ itemCols (k + 1) rest → x ∈ itemCols k (it :: rest) := by
        intro x hx
        simp only [itemCols]
        exact List.mem_cons_of_mem _ (List.mem_cons_of_mem _
          (List.mem_cons_of_mem _ (List.mem_cons_of_mem _ hx)))
      obtain ⟨m1, m2, m3, m4⟩ := ih (k + 1) i2 h2
      exact ⟨mem4 m1, mem4 m2, mem4 m3, mem4 m4⟩

theorem to_dict_tail {o : Order} {x : String × CellVal} (hx : x ∈ itemCols 1 o.items) :
    x ∈ o.to_dict := by
  simp only [Order.to_dict]
  exact List.mem_cons_of_mem _ (List.mem_cons_of_mem _ (List.mem_cons_of_mem _
    (List.mem_cons_of_mem _ (List.mem_cons_of_mem _ (List.mem_cons_of_mem _ hx)))))

/-- C9: the flat row of `Order.to_dict` carries `item_count` equal to the
number of items; for each item at 1-based position `i+1` it carries the four
`item_<n>_<attr>` cells with that item's values; an order with no items
yields exactly the six base cells and no item cells; absent optional values
are serialized as the null cell, which differs from zero and from the text
"None". -/
theorem c9_to_dict_flattening (o : Order) :
    ("item_count", CellVal.vInt o.items.length) ∈ o.to_dict ∧
    (∀ i (h : i < o.items.length),
      ("item_" ++ toString (i + 1) ++ "_name",
        CellVal.vStr (o.items.get ⟨i, h⟩).name) ∈ o.to_dict ∧
      ("item_" ++ toString (i + 1) ++ "_price",
        optNum (o.items.get ⟨i, h⟩).price) ∈ o.to_dict ∧
      ("item_" ++ toString (i + 1) ++ "_quantity",
        CellVal.vInt (o.items.get ⟨i, h⟩).quantity) ∈ o.to_dict ∧
      ("item_" ++ toString (i + 1) ++ "_asin",
        optStr (o.items.get ⟨i, h⟩).asin) ∈ o.to_dict) ∧
    (o.items = [] → o.to_dict =
      [("order_id", CellVal.vStr o.order_id),
       ("order_date", CellVal.vStr ⟨fmtISOChars o.order_date⟩),
       ("order_total", optNum o.order_total),
       ("status", optStr o.status),
       ("shipping_address", optStr o.shipping_address),
       ("item_count", CellVal.vInt 0)]) ∧
    (o.order_total = none → ("order_total", CellVal.vNull) ∈ o.to_dict) ∧
    (∀ i (h : i < o.items.length), (o.items.get ⟨i, h⟩).price = none →
      ("item_" ++ toString (i + 1) ++ "_price", CellVal.vNull) ∈ o.to_dict) ∧
    (CellVal.vNull ≠ CellVal.vInt 0 ∧ CellVal.vNull ≠ CellVal.vNum 0 ∧
      CellVal.vNull ≠ CellVal.vStr "None") := by
  refine ⟨by simp [Order.to_dict], ?_, ?_, ?_, ?_, by decide, by decide, by decide⟩
  · intro i h
    obtain ⟨m1, m2, m3, m4⟩ := itemCols_mem o.items 1 i h
    rw [Nat.add_comm 1 i] at m1 m2 m3 m4
    exact ⟨to_dict_tail m1, to_dict_tail m2, to_dict_tail m3, to_dict_tail m4⟩
  · intro hnil
    simp [Order.to_dict, hnil, itemCols]
  · intro hnone
    have : optNum o.order_total = CellVal.vNull := by rw [hnone]; rfl
    rw [← this]
    simp [Order.to_dict]
  · intro i h hp
    obtain ⟨-, m2, -, -⟩ := itemCols_mem o.items 1 i h
    rw [Nat.add_comm 1 i] at m2
    rw [hp] at m2
    exact to_dict_tail m2

/-- Witness for C9 at a concrete two-item order. -/
theorem c9_to_dict_witness :
    ("item_count", CellVal.vInt 2) ∈ (Order.to_dict
      { order_id := "111-4868416-8480200", order_date := ⟨2023, 1, 15⟩,
        order_total := none,
        items := [{ name := "A", price := some 5, quantity := 1, asin := none, url := none },
                  { name := "B", price := none, quantity := 2, asin := none, url := none }],
        shipping_address := some "", status := some "" }) ∧
    ("order_total", CellVal.vNull) ∈ (Order.to_dict
      { order_id := "111-4868416-8480200", order_date := ⟨2023, 1, 15⟩,
        order_total := none,
        items := [{ name := "A", price := some 5, quantity := 1, asin := none, url := none },
                  { name := "B", price := none, quantity := 2, asin := none, url := none }],
        shipping_address := some "", status := some "" }) := by
  constructor
  · exact (c9_to_dict_flattening _).1
  · exact (c9_to_dict_flattening _).2.2.2.1 rfl

/-! ### C7: order views without an id element produce no record -/

/-- C7: when an order view's id sub-element is absent, `extract_order_info`
returns `none`, and the page-level extraction of any card list containing
that view equals the extraction with the view removed — no record for it
reaches the page result (and hence no export). -/
theorem c7_missing_id_skipped (now : Date) (v : OrderView) (hv : v.idText = none) :
    extract_order_info now v = none ∧
    (∀ (pre suf : List OrderView) (pg : PageView),
      pg.containerOk = true → pg.cards = pre ++ v :: suf →
      extract_orders_from_page now pg =
        .ok ((pre ++ suf).filterMap (extract_order_info now))) := by
  have h1 : extract_order_info now v = none := by
    unfold extract_order_info
    rw [hv]
  refine ⟨h1, ?_⟩
  intro pre suf pg hc hcards
  unfold extract_orders_from_page
  rw [if_pos hc, hcards]
  simp [List.filterMap_append, List.filterMap_cons, h1]

/-- Witness for C7 at a concrete id-less view on a one-card page. -/
theorem c7_missing_id_witness :
    extract_order_info ⟨2024, 1, 1⟩ ⟨none, [], none, [], none, []⟩ = none ∧
    extract_orders_from_page ⟨2024, 1, 1⟩
      ⟨true, [⟨none, [], none, [], none, []⟩], false, false, false⟩ =
      .ok (([] : List OrderView).filterMap (extract_order_info ⟨2024, 1, 1⟩)) := by
  constructor
  · exact (c7_missing_id_skipped ⟨2024, 1, 1⟩ ⟨none, [], none, [], none, []⟩ rfl).1
  · exact (c7_missing_id_skipped ⟨2024, 1, 1⟩ ⟨none, [], none, [], none, []⟩ rfl).2
      [] [] ⟨true, [⟨none, [], none, [], none, []⟩], false, false, false⟩ rfl rfl

/-! ### C10: present but pattern-free id text -/

/-- C10 counterexample: a view whose id element is present with
whitespace-only text is nevertheless dropped when the primary date is absent
and the free-text date match exists but is not a valid date (the pydantic
constructor raises and the handler returns `None`). -/
theorem c10_counterexample :
    extract_order_info ⟨2024, 1, 1⟩
      ⟨some "   ", [], some "February 30, 2023", [], none, []⟩ = none ∧
    extract_date "February 30, 2023" = none := ⟨rfl, rfl⟩

/-- C10 (amended): when the id element is present with text containing no
`\d+-\d+-\d+` pattern, and the date-fallback chain does not fail,
`extract_order_info` produces a record whose `order_id` is the cleaned raw
text — possibly the empty string — rather than skipping the order. -/
theorem c10_empty_id_still_record (now : Date) (v : OrderView) (idt : String)
    (hid : v.idText = some idt) (hno : ¬ hasIdSub idt.data)
    (hres : resolvedDate now v ≠ none) :
    ∃ o, extract_order_info now v = some o ∧ o.order_id = clean_text idt := by
  rcases hr : resolvedDate now v with _ | d
  · exact absurd hr hres
  · simp only [extract_order_info, hid, hr]
    refine ⟨_, rfl, ?_⟩
    show extract_order_id idt = clean_text idt
    by_cases h0 : idt = ""
    · subst h0
      rfl
    · unfold extract_order_id
      rw [if_neg h0]
      rcases hf : findId idt.data with _ | m
      · rfl
      · exact absurd (findId_decomp _ _ hf) hno

/-- Witness for C10 at a whitespace-only id text (cleaned to `""`). -/
theorem c10_empty_id_witness :
    ∃ o, extract_order_info ⟨2024, 1, 1⟩ ⟨some "   ", [], none, [], none, []⟩ = some o ∧
      o.order_id = clean_text "   " :=
  c10_empty_id_still_record ⟨2024, 1, 1⟩ ⟨some "   ", [], none, [], none, []⟩ "   " rfl
    (fun hsub => by
      have h2 := findId_of_sub "   ".data hsub
      have h3 : findId "   ".data = none := rfl
      rw [h3] at h2
      simp at h2)
    (by decide)

/-! ### C2: full-scan behaviour when advancing fails -/

/-- C2 counterexample: page 1 is read successfully and yields one order, the
"next" control is present and enabled, but the advance raises — the loop
propagates the error instead of returning the accumulated orders, and the
run writes nothing. -/
theorem c2_counterexample :
    extract_orders_from_page ⟨2024, 1, 1⟩
        ⟨true, [⟨some "111-4868416-8480200", [], none, [], none, []⟩], true, false, false⟩ =
      .ok [{ order_id := "111-4868416-8480200", order_date := ⟨2024, 1, 1⟩,
             order_total := none, items := [], shipping_address := some "",
             status := some "" }] ∧
    extract_all_orders ⟨2024, 1, 1⟩ none
        [⟨true, [⟨some "111-4868416-8480200", [], none, [], none, []⟩], true, false, false⟩] =
      .error .timeout ∧
    runFullScan ⟨2024, 1, 1⟩ none
        [⟨true, [⟨some "111-4868416-8480200", [], none, [], none, []⟩], true, false, false⟩] =
      none := ⟨rfl, rfl, rfl⟩

/-- C2 (amended): in full-scan mode, when advancing to the next page fails
by raising (navigation error or wait-for-container timeout) after any number
of successfully read pages, the exception propagates out of
`extract_all_orders`: the caller receives the error, not the accumulated
orders, and the run's top-level handler then writes no output.  (A graceful
stop with accumulated orders happens only for an absent or disabled "next"
control or the page ceiling.) -/
theorem c2_advance_failure_propagates (now : Date) (pre : List PageView) (p : PageView)
    (rest : List PageView) (hg : ∀ q ∈ pre, goodAdvance q) (hb : badAdvance p) :
    extract_all_orders now none (pre ++ p :: rest) = .error .timeout ∧
    runFullScan now none (pre ++ p :: rest) = none := by
  have main : ∀ (pre2 : List PageView), (∀ q ∈ pre2, goodAdvance q) →
      ∀ (n : Nat) (acc : List Order),
      extractAllLoop now none (pre2 ++ p :: rest) n acc = .error .timeout := by
    intro pre2
    induction pre2 with
    | nil =>
      intro _ n acc
      obtain ⟨hc, hnp, hnd, hna⟩ := hb
      have hm : maxReached none n = false := rfl
      have hps : extract_orders_from_page now p =
          .ok (p.cards.filterMap (extract_order_info now)) := by
        unfold extract_orders_from_page
        rw [if_pos hc]
      have hnx : has_next_page p = true := by simp [has_next_page, hnp, hnd]
      have hgo : go_to_next_page p = .error .timeout := by
        simp [go_to_next_page, hnp, hna]
      simp only [List.nil_append, extractAllLoop, hm, Bool.false_eq_true, if_false,
        hps, hnx, hgo, Bool.not_true]
    | cons q pre3 ih =>
      intro hg2 n acc
      obtain ⟨hc, hnp, hnd, hna⟩ := hg2 q (List.mem_cons_self q pre3)
      have hm : maxReached none n = false := rfl
      have hps : extract_orders_from_page now q =
          .ok (q.cards.filterMap (extract_order_info now)) := by
        unfold extract_orders_from_page
        rw [if_pos hc]
      have hnx : has_next_page q = true := by simp [has_next_page, hnp, hnd]
      have hgo : go_to_next_page q = .ok true := by
        simp [go_to_next_page, hnp, hna]
      simp only [List.cons_append, extractAllLoop, hm, Bool.false_eq_true, if_false,
        hps, hnx, hgo, Bool.not_true]
      exact ih (fun x hx => hg2 x (List.mem_cons_of_mem q hx)) (n + 1) _
  have hmain := main pre hg 1 []
  constructor
  · exact hmain
  · unfold runFullScan extract_all_orders
    unfold extract_all_orders at hmain
    rw [hmain]

/-- Witness for C2 at a one-good-page prefix followed by a failing advance. -/
theorem c2_advance_failure_witness :
    extract_all_orders ⟨2024, 1, 1⟩ none
        ([⟨true, [], true, false, true⟩] ++
          ⟨true, [⟨some "111-4868416-8480200", [], none, [], none, []⟩], true, false, false⟩ ::
          []) = .error .timeout ∧
    runFullScan ⟨2024, 1, 1⟩ none
        ([⟨true, [], true, false, true⟩] ++
          ⟨true, [⟨some "111-4868416-8480200", [], none, [], none, []⟩], true, false, false⟩ ::
          []) = none :=
  c2_advance_failure_propagates ⟨2024, 1, 1⟩ [⟨true, [], true, false, true⟩]
    ⟨true, [⟨some "111-4868416-8480200", [], none, [], none, []⟩], true, false, false⟩ []
    (by
      intro q hq
      simp only [List.mem_singleton] at hq
      subst hq
      exact ⟨rfl, rfl, rfl, rfl⟩)
    ⟨rfl, rfl, rfl, rfl⟩

/-! ### C1: deduplication by order id -/

theorem addOrders_spec (targets : List String) :
    ∀ (os acc : List Order) (found : List String),
      (acc.map Order.order_id).Nodup →
      (∀ x ∈ acc.map Order.order_id, x ∈ found) →
      (((addOrders targets acc found os).1.map Order.order_id).Nodup ∧
       (∀ x ∈ (addOrders targets acc found os).1.map Order.order_id,
          x ∈ (addOrders targets acc found os).2) ∧
       (∀ x ∈ found, x ∈ (addOrders targets acc found os).2) ∧
       (∀ x ∈ (addOrders targets acc found os).1.map Order.order_id,
          x ∈ acc.map Order.order_id ∨ x ∉ found)) := by
  intro os
  induction os with
  | nil =>
    intro acc found h1 h2
    simp only [addOrders]
    exact ⟨h1, h2, fun x hx => hx, fun x hx => Or.inl hx⟩
  | cons o os2 ih =>
    intro acc found h1 h2
    simp only [addOrders]
    split
    · rename_i hcond
      obtain ⟨hintg, hnotf⟩ := hcond
      have h1b : ((acc ++ [o]).map Order.order_id).Nodup := by
        rw [List.map_append]
        refine List.Nodup.append h1 (List.nodup_singleton _) ?_
        intro x hx hx2
        simp only [List.map_cons, List.map_nil, List.mem_singleton] at hx2
        subst hx2
        exact hnotf (h2 _ hx)
      have h2b : ∀ x ∈ (acc ++ [o]).map Order.order_id, x ∈ o.order_id :: found := by
        intro x hx
        rw [List.map_append] at hx
        rcases List.mem_append.mp hx with h | h
        · exact List.mem_cons_of_mem _ (h2 x h)
        · simp only [List.map_cons, List.map_nil, List.mem_singleton] at h
          subst h
          exact List.mem_cons_self _ _
      obtain ⟨g1, g2, g3, g4⟩ := ih (acc ++ [o]) (o.order_id :: found) h1b h2b
      refine ⟨g1, g2, ?_, ?_⟩
      · intro x hx
        exact g3 x (List.mem_cons_of_mem _ hx)
      · intro x hx
        rcases g4 x hx with h | h
        · rw [List.map_append] at h
          rcases List.mem_append.mp h with h | h
          · exact Or.inl h
          · simp only [List.map_cons, List.map_nil, List.mem_singleton] at h
            subst h
            exact Or.inr hnotf
        · right
          intro hxf
          exact h (List.mem_cons_of_mem _ hxf)
    · exact ih acc found h1 h2

theorem searchGo_spec (targets : List String) (res : String → List Order) :
    ∀ (ts : List String) (acc : List Order) (found : List String),
      (acc.map Order.order_id).Nodup →
      (∀ x ∈ acc.map Order.order_id, x ∈ found) →
      (((searchGo targets res ts acc found).1.map Order.order_id).Nodup ∧
       ∀ x ∈ (searchGo targets res ts acc found).1.map Order.order_id,
         x ∈ (searchGo targets res ts acc found).2) := by
  intro ts
  induction ts with
  | nil =>
    intro acc found h1 h2
    simp only [searchGo]
    exact ⟨h1, h2⟩
  | cons t ts2 ih =>
    intro acc found h1 h2
    simp only [searchGo]
    obtain ⟨g1, g2, -, -⟩ := addOrders_spec targets (res t) acc found h1 h2
    exact ih _ _ g1 g2

/-- C1 (amended): in targeted mode — the search pass over the target ids
followed, when targets remain unfound, by the fallback full scan filtered
through the same found set — the final record set never contains two orders
with the same `order_id`: the found-set membership check suppresses every
duplicate.  (Plain full-scan mode performs no such check and can emit
duplicates, see the counterexample.) -/
theorem c1_targeted_dedup (targets : List String) (res : String → List Order)
    (scan : List Order) :
    ((runTargeted targets res scan).map Order.order_id).Nodup := by
  obtain ⟨h1, h2⟩ := searchGo_spec targets res targets [] []
    (by simp) (by simp)
  have hsa1 : (searchAllTargetOrders targets res).1 = (searchGo targets res targets [] []).1 := rfl
  have hsa2 : (searchAllTargetOrders targets res).2 = (searchGo targets res targets [] []).2 := rfl
  unfold runTargeted
  by_cases hmiss : targets.filter (fun t => t ∉ (searchAllTargetOrders targets res).2) = []
  · rw [if_pos hmiss, hsa1]
    exact h1
  · rw [if_neg hmiss]
    have htne : targets ≠ [] := by
      intro hcon
      subst hcon
      simp at hmiss
    unfold filter_target_orders
    rw [if_neg htne]
    obtain ⟨g1, g2, -, g4⟩ := addOrders_spec targets scan []
      (searchAllTargetOrders targets res).2 (by simp) (by simp)
    rw [List.map_append, hsa1]
    refine List.Nodup.append h1 g1 ?_
    intro x hx hx2
    have hxf : x ∈ (searchGo targets res targets [] []).2 := h2 x hx
    rcases g4 x hx2 with h | h
    · simp at h
    · rw [hsa2] at h
      exact h hxf

/-- C1 counterexample: in plain full-scan mode (no targets) the loop simply
concatenates page results with no membership check, so the same order id
appearing on two pages reaches the export twice. -/
theorem c1_fullscan_dup_counterexample :
    runFullScan ⟨2024, 1, 1⟩ none
        [⟨true, [⟨some "111-4868416-8480200", [], none, [], none, []⟩], true, false, true⟩,
         ⟨true, [⟨some "111-4868416-8480200", [], none, [], none, []⟩], false, false, false⟩] =
      some [{ order_id := "111-4868416-8480200", order_date := ⟨2024, 1, 1⟩,
              order_total := none, items := [], shipping_address := some "",
              status := some "" },
            { order_id := "111-4868416-8480200", order_date := ⟨2024, 1, 1⟩,
              order_total := none, items := [], shipping_address := some "",
              status := some "" }] ∧
    ¬ (([{ order_id := "111-4868416-8480200", order_date := ⟨2024, 1, 1⟩,
           order_total := none, items := [], shipping_address := some "",
           status := some "" },
         { order_id := "111-4868416-8480200", order_date := ⟨2024, 1, 1⟩,
           order_total := none, items := [], shipping_address := some "",
           status := some "" }] : List Order).map Order.order_id).Nodup := by
  constructor
  · rfl
  · decide
